import Mathlib

/-!
Verification of the ASTRAL weekly production scheduler
(`src/metaheuristic/ALNS_operator.py`, `src/metaheuristic/tabu_search.py`,
`src/metaheuristic/neighbor_generator.py`) against its specification.

The Python source is shallowly embedded: dictionaries become association
lists (insertion-ordered, like Python dicts), `defaultdict(float)` becomes a
total function `Nat → ℚ` with pointwise update, Python floats become exact
rationals `ℚ`, and the global `random` module becomes an explicitly threaded
stream of naturals (`Rng`).  Style and line identifiers are the dense integer
ids that `ALNSOperator.__init__` interns (`style_to_id`); days are the integer
day indices of `setT`.
-/

/-! ## Generic helpers: association lists (Python dict), RNG stream -/

/-- Lookup in an association list, mirroring `d.get(k)` / `d[k]` on a Python
dict: the first entry whose key equals `k` (keys are unique, like dict keys). -/
def dget {κ ν : Type} [DecidableEq κ] (d : List (κ × ν)) (k : κ) : Option ν :=
  (d.find? (fun p => p.1 = k)).map (fun p => p.2)

/-- Update of an association list, mirroring `d[k] = v` on a Python dict: an
existing key keeps its position, a new key is appended at the end. -/
def dset {κ ν : Type} [DecidableEq κ] : List (κ × ν) → κ → ν → List (κ × ν)
  | [], k, v => [(k, v)]
  | (k0, v0) :: rest, k, v =>
      if k0 = k then (k, v) :: rest else (k0, v0) :: dset rest k v

/-- Keep the last `n` elements of a list (what `collections.deque(xs, maxlen=n)`
retains). -/
def takeLast {α : Type} (n : Nat) (xs : List α) : List α :=
  xs.drop (xs.length - n)

/-- The global `random` module, modelled as a stream of naturals.  Each
primitive consumes values from the front; an exhausted stream yields `0`.
The claims quantify over all streams (or fix a concrete one), so only the
functional dependence on the stream matters, not its distribution. -/
abbrev Rng : Type := List Nat

/-- Draw one natural from the stream. -/
def rngNext (rng : Rng) : Nat × Rng :=
  match rng with
  | [] => (0, [])
  | n :: rest => (n, rest)

/-- Model of `random.choice(xs)`: pick the element indexed by the next draw
modulo the length.  `none` only for an empty list (where Python would raise;
every call site guards against it). -/
def rngChoice {α : Type} (xs : List α) (rng : Rng) : Option α × Rng :=
  let p := rngNext rng
  (xs.get? (p.1 % xs.length), p.2)

/-- Remove the element at position `i`, returning it and the remainder. -/
def pickNth {α : Type} : List α → Nat → Option α × List α
  | [], _ => (none, [])
  | x :: xs, 0 => (some x, xs)
  | x :: xs, n + 1 =>
      let p := pickNth xs n
      (p.1, x :: p.2)

/-- Fuelled Fisher-Yates style selection used to model `random.shuffle`. -/
def rngShuffleAux {α : Type} : Nat → List α → Rng → List α × Rng
  | 0, _, rng => ([], rng)
  | _ + 1, [], rng => ([], rng)
  | fuel + 1, xs, rng =>
      let p := rngNext rng
      match pickNth xs (p.1 % xs.length) with
      | (some x, rest) =>
          let q := rngShuffleAux fuel rest p.2
          (x :: q.1, q.2)
      | (none, _) => ([], p.2)

/-- Model of `random.shuffle(xs)`: an rng-determined permutation of `xs`. -/
def rngShuffle {α : Type} (xs : List α) (rng : Rng) : List α × Rng :=
  rngShuffleAux xs.length xs rng

/-- Model of `random.sample(xs, k)`: `k` distinct rng-chosen elements. -/
def rngSample {α : Type} (xs : List α) (k : Nat) (rng : Rng) : List α × Rng :=
  let p := rngShuffle xs rng
  (p.1.take k, p.2)

/-- Model of `random.randint(a, b)` (both bounds inclusive). -/
def rngRandint (a b : Nat) (rng : Rng) : Nat × Rng :=
  let p := rngNext rng
  (a + p.1 % (b - a + 1), p.2)

/-- Model of `random.random()`: a rational in `[0, 1)` derived from one draw. -/
def rngFloat (rng : Rng) : ℚ × Rng :=
  let p := rngNext rng
  (((p.1 % 1000000 : Nat) : ℚ) / 1000000, p.2)

/-- Pointwise update of a total function, used for `defaultdict` state. -/
def updF {α : Type} (f : Nat → α) (k : Nat) (v : α) : Nat → α :=
  fun x => if x = k then v else f x

/-- Pointwise update of a two-argument function (for `daily_prod_history`). -/
def updH (f : Nat → Int → ℚ) (s : Nat) (t : Int) (v : ℚ) : Nat → Int → ℚ :=
  fun s0 t0 => if s0 = s ∧ t0 = t then v else f s0 t0

/-- Iterate a function `n` times (innermost application first). -/
def stepN {α : Type} (f : α → α) : Nat → α → α
  | 0, x => x
  | n + 1, x => stepN f n (f x)

/-! ## The problem model

The id-encoded view of the input that `ALNSOperator.__init__` precomputes:
`style_to_id` interning, `line_allowed_lists` (the per-line capability lists,
in the iteration order of the `cap_map[l]` set), `precomputed['style_sam']`
and `precomputed['line_capacity']`, and the id-translated parameter tables
built at the top of `repair_and_evaluate` (`param_lexp`, `param_plate`,
`param_tfab`, `param_tprod`, `param_F`, `param_D`, `set_ssame`).  Parameter
lookups that the source performs with `.get(key, 0)` (or via `defaultdict`)
are modelled as total functions whose value at a missing key is the default. -/
structure Model where
  /-- `all_style_ids = list(style_to_id.values())`, i.e. `0, 1, …, S-1`. -/
  styles : List Nat
  /-- `set_l = input.set['setL']` (line ids, in order, unique). -/
  lines : List Nat
  /-- `input.set['setT']` (day indices, as loaded). -/
  setT : List Nat
  /-- `line_allowed_lists[l]`: allowed style ids for line `l`, in the
  iteration order of the `cap_map[l]` set (a Python set: arbitrary order). -/
  allowed : Nat → List Nat
  /-- `precomputed['style_sam']` looked up via `.get(s, 0)`. -/
  samv : Nat → ℚ
  /-- `precomputed['line_capacity'][l]`: the list
  `[paramH.get((l,t),0) * 60 * paramN[l] for t in setT]`, indexed `t - 1`. -/
  lineCapacity : Nat → List ℚ
  /-- `paramH.get((l, t), 0)`: working hours. -/
  paramH : Nat → Nat → ℚ
  /-- `Csetup`. -/
  csetup : ℚ
  /-- `Rexp`. -/
  rexp : ℚ
  /-- `param_lexp.get((l, s), 0)`: initial per-(line,style) experience. -/
  lexp : Nat → Nat → ℚ
  /-- `param_plate.get(s, 0)`: late penalty. -/
  plate : Nat → ℚ
  /-- `param_tfab.get(s, 0)`: fabric lead. -/
  tfab : Nat → Int
  /-- `param_tprod.get(s, 0)`: finishing lead. -/
  tprod : Nat → Int
  /-- `param_F[(s, t)]` (defaultdict): fabric arrivals; `Int` day index since
  the source looks it up at `t - LT_f`. -/
  paramF : Nat → Int → ℚ
  /-- `param_D[(s, t)]` (defaultdict): demand. -/
  paramD : Nat → Nat → ℚ
  /-- `set_ssame`: id pairs whose changeover preserves experience. -/
  ssame : List (Nat × Nat)
  /-- `inv_fab` after loading `paramI0fabric` (id-filtered, default 0). -/
  i0fab : Nat → ℚ
  /-- `inv_prod` after loading `paramI0product`. -/
  i0prod : Nat → ℚ
  /-- `backlog` after loading `paramB0`. -/
  b0 : Nat → ℚ
  /-- The learning curve `[(paramXp[p], paramFp[p]) for p in sorted(setBP)]`. -/
  curve : List (ℚ × ℚ)
  /-- `paramY0.get((l, s), 0)`. -/
  paramY0 : Nat → Nat → ℚ
  /-- Whether `'paramY0' in input.param`. -/
  hasY0 : Bool
  /-- `discount_alpha`. -/
  alpha : ℚ
  /-- `paramExp0.get(l, 0)`. -/
  exp0 : Nat → ℚ
  /-- `id_to_style`: dense id back to the style name. -/
  idToStyle : Nat → String
  /-- `style_to_id.get(name)`: style name to dense id (`none` if unknown). -/
  styleToId : String → Option Nat

/-- The comparison tolerance `1e-6` used throughout the material logic. -/
def eps : ℚ := 1 / 1000000

/-- `ALNSOperator._discount`: `1 / (1 + alpha) ** t`. -/
def discount (alpha : ℚ) (t : Nat) : ℚ := 1 / (1 + alpha) ^ t

/-- `sorted_times = sorted(self.input.set['setT'])`. -/
def sortedTimes (m : Model) : List Nat := m.setT.mergeSort (fun a b => a ≤ b)

/-- `ALNSOperator._is_allowed`: membership in `line_allowed_sets[line]`. -/
def isAllowed (m : Model) (l : Nat) (s : Nat) : Bool := (m.allowed l).contains s

/-- `ALNSOperator._random_allowed_style_id`: `None` when the line has no
allowed styles (no rng consumed), otherwise `random.choice` of the list. -/
def randomAllowedStyleId (m : Model) (l : Nat) (rng : Rng) : Option Nat × Rng :=
  match m.allowed l with
  | [] => (none, rng)
  | x :: xs => rngChoice (x :: xs) rng

/-- `ALNSOperator._get_initial_style_id`: when `paramY0` is present, the first
style id (in `style_to_id` iteration order, i.e. ascending id) whose
`paramY0[(line, s)]` equals 1.  Note that the result is not checked against
`line_allowed_sets[line]`. -/
def getInitialStyleId (m : Model) (l : Nat) : Option Nat :=
  if m.hasY0 then m.styles.find? (fun s => m.paramY0 l s = 1) else none

/-- `ALNSOperator.set_pruning_best`: an infinite best keeps the cutoff
infinite, a finite best sets the cutoff to `best * 1.2`.  `none` stands for
the float `inf`. -/
def setPruningBest (best : Option ℚ) : Option ℚ :=
  match best with
  | none => none
  | some b => some (b * (6 / 5))

/-- The last breakpoint `curve[-1]` (the curve is never empty in practice). -/
def lastD (xs : List (ℚ × ℚ)) : ℚ × ℚ := xs.getLastD (0, 0)

/-- The scan `for i in range(len(curve)-1): if x1 <= exp_days <= x2: …` of
`calc_eff`: the first segment containing `x`, linearly interpolated. -/
def interpSeg : List (ℚ × ℚ) → ℚ → Option ℚ
  | p1 :: p2 :: rest, x =>
      if p1.1 ≤ x ∧ x ≤ p2.1 then
        some (p1.2 + (p2.2 - p1.2) * (x - p1.1) / (p2.1 - p1.1))
      else interpSeg (p2 :: rest) x
  | _, _ => none

/-- `calc_eff` from `_build_efficiency_lookup`: clamp below the first and
above the last breakpoint, otherwise interpolate on the containing segment,
with the final `return curve[-1][1]` fallthrough.  An empty curve would raise
in Python (`curve[0]`); it is modelled as 0 and never arises. -/
def calcEff (curve : List (ℚ × ℚ)) (x : ℚ) : ℚ :=
  match curve with
  | [] => 0
  | c0 :: rest =>
      if x ≤ c0.1 then c0.2
      else if (lastD (c0 :: rest)).1 ≤ x then (lastD (c0 :: rest)).2
      else
        match interpSeg (c0 :: rest) x with
        | some y => y
        | none => (lastD (c0 :: rest)).2

/-- Python `int()` truncation toward zero, applied to `exp_days`. -/
def ratTrunc (q : ℚ) : Int := if 0 ≤ q then q.floor else -((-q).floor)

/-- `ALNSOperator.get_efficiency`: index the precomputed table by
`int(exp_days)` clamped to `[0, max_lookup_day]` with `max_lookup_day = 20`;
the table entry for day `d` is `calc_eff(d)`. -/
def getEfficiency (m : Model) (expDays : ℚ) : ℚ :=
  let dayIdx := ratTrunc expDays
  if 20 ≤ dayIdx then calcEff m.curve 20
  else if dayIdx < 0 then calcEff m.curve 0
  else calcEff m.curve ((dayIdx.toNat : Nat) : ℚ)

/-! ## Solutions and evaluator state -/

/-- The `solution['assignment']` dict: keys `(line, day)`, values a style id
or Python `None` (the transient "unassigned" sentinel).  String-valued cells
are translated to ids by the repair phase (`style_to_id.get`); assignments in
this embedding are kept id-valued throughout. -/
abbrev Assign : Type := List ((Nat × Nat) × Option Nat)

/-- Value lookup `assignment.get((l, t))`: both a missing key and a stored
`None` read back as `none`, as with `dict.get`. -/
def alookup (a : Assign) (k : Nat × Nat) : Option Nat :=
  (dget a k).join

/-- The dict passed into `repair_and_evaluate`: the assignment plus the
optional `"type"` tag (`solution.get("type")`). -/
structure SolIn where
  assignment : Assign
  type : Option String

/-- The dict returned by `repair_and_evaluate`.  Aggregate fields are `none`
when evaluation was pruned (the source then returns early with
`total_cost = inf` and never writes `final_backlog` / `total_setup` /
`total_late` / `total_exp`); `totalCost = none` stands for `float('inf')`. -/
structure Sol where
  assignment : Assign
  production : List ((Nat × Nat × Nat) × ℚ)
  shipment : List ((Nat × Nat) × ℚ)
  changes : List ((Nat × Option Nat × Nat × Nat) × ℚ)
  experience : List ((Nat × Nat) × ℚ)
  efficiency : List ((Nat × Nat) × ℚ)
  finalBacklog : Option (List (String × ℚ))
  totalSetup : Option ℚ
  totalLate : Option ℚ
  totalExp : Option ℚ
  totalCost : Option ℚ
  type : Option String
deriving DecidableEq

/-- One entry of `line_states`: `current_style`, `exp`, `up_exp`. -/
structure LineState where
  currentStyle : Option Nat
  exp : ℚ
  upExp : ℚ
deriving DecidableEq

/-- The mutable per-evaluation scratch state of `repair_and_evaluate`. -/
structure EvalSt where
  assign : Assign
  invFab : Nat → ℚ
  invProd : Nat → ℚ
  backlog : Nat → ℚ
  lineSt : Nat → LineState
  prodHist : Nat → Int → ℚ
  production : List ((Nat × Nat × Nat) × ℚ)
  shipment : List ((Nat × Nat) × ℚ)
  changes : List ((Nat × Option Nat × Nat × Nat) × ℚ)
  experience : List ((Nat × Nat) × ℚ)
  efficiency : List ((Nat × Nat) × ℚ)
  setupCost : ℚ
  lateCost : ℚ
  expReward : ℚ
  rng : Rng

/-- The REPAIR PHASE of `repair_and_evaluate`: walk the snapshot
`list(assignment.items())`; any cell that is `None` or not allowed for its
line is overwritten with `_random_allowed_style_id(l)`. -/
def repairPhase (m : Model) : Assign → List ((Nat × Nat) × Option Nat) → Rng → Assign × Rng
  | a, [], rng => (a, rng)
  | a, (k, v) :: rest, rng =>
      let bad : Bool :=
        match v with
        | none => true
        | some s => ! isAllowed m k.1 s
      if bad then
        let p := randomAllowedStyleId m k.1 rng
        repairPhase m (dset a k p.1) rest p.2
      else repairPhase m a rest rng

/-- `set_ssame` membership test `(current, new) in set_ssame`; a `None`
current style (a Python `None` inside a set of int pairs) never matches. -/
def sameFamily (m : Model) (cur : Option Nat) (s : Nat) : Bool :=
  match cur with
  | some c => m.ssame.contains (c, s)
  | none => false

/-- The SMART MATERIAL LOGIC block deciding the final style for line `l` on
day `t`.  CASE 1 (planned switch, `current ≠ s0`): if the target has no
fabric, stay on the current style and write it back into the assignment.
CASE 2 (planned stay, `current = s0`): if fabric has run out, wait only when
tomorrow's plan (`assignment[(l, next_t)]`) is the same style; otherwise
shuffle the allowed list and switch to the first different style with fabric,
writing it back.  With no current style the block is skipped. -/
def smartStyle (m : Model) (t : Nat) (nextT : Option Nat) (l : Nat) (s0 : Nat)
    (cur : Option Nat) (invFab : Nat → ℚ) (assign : Assign) (rng : Rng) :
    Nat × Assign × Rng :=
  match cur with
  | none => (s0, assign, rng)
  | some c =>
      if c ≠ s0 then
        if invFab s0 ≤ eps then (c, dset assign (l, t) (some c), rng)
        else (s0, assign, rng)
      else
        if invFab s0 ≤ eps then
          let allowWait : Bool :=
            match nextT with
            | some nt => decide (alookup assign (l, nt) = some s0)
            | none => false
          if allowWait then (s0, assign, rng)
          else
            let p := rngShuffle (m.allowed l) rng
            match p.1.find? (fun cand => cand ≠ s0 ∧ eps < invFab cand) with
            | some cand => (cand, dset assign (l, t) (some cand), p.2)
            | none => (s0, assign, p.2)
        else (s0, assign, rng)

/-- The per-line body of step 2 (`for l in set_l`) of the time loop: carry
`up_exp` into `exp`, resolve the final style via the smart material logic,
record changeover/setup/experience/efficiency, enqueue the production
candidate `(l, max_p)` when the day has hours and the style a positive SAM,
and advance `current_style`.  The second component accumulates `pot_prod`. -/
def processLine (m : Model) (t : Nat) (nextT : Option Nat) (disc : ℚ)
    (acc : EvalSt × (Nat → List (Nat × ℚ))) (l : Nat) :
    EvalSt × (Nat → List (Nat × ℚ)) :=
  let st := acc.1
  let pot := acc.2
  let ls := st.lineSt l
  let exp1 := ls.exp + ls.upExp
  match alookup st.assign (l, t) with
  | none =>
      ({ st with lineSt := updF st.lineSt l ⟨ls.currentStyle, exp1, 0⟩ }, pot)
  | some s0 =>
      let tri := smartStyle m t nextT l s0 ls.currentStyle st.invFab st.assign st.rng
      let sNew := tri.1
      let assign1 := tri.2.1
      let rng1 := tri.2.2
      let changed : Bool := ! decide (ls.currentStyle = some sNew)
      let changes1 :=
        if changed then dset st.changes (l, ls.currentStyle, sNew, t) 1 else st.changes
      let setup1 := if changed then st.setupCost + m.csetup * disc else st.setupCost
      let exp2 :=
        if changed && ! sameFamily m ls.currentStyle sNew then m.lexp l sNew else exp1
      let eff := getEfficiency m exp2
      let workDay : Bool := decide (0 < m.paramH l t)
      let sam := m.samv sNew
      let pot1 :=
        if workDay && decide (0 < sam) then
          let capMin := (m.lineCapacity l).getD (t - 1) 0
          let maxP := capMin * eff / sam
          fun s => if s = sNew then pot s ++ [(l, maxP)] else pot s
        else pot
      ({ st with
          assign := assign1
          rng := rng1
          changes := changes1
          setupCost := setup1
          experience := dset st.experience (l, t) exp2
          efficiency := dset st.efficiency (l, t) eff
          expReward := st.expReward + exp2 * m.rexp
          lineSt := updF st.lineSt l ⟨some sNew, exp2, 0⟩ }, pot1)

/-- Step 1 of the time loop: `inv_fab[s] += param_F.get((s, t - LT_f), 0)`
for every style id. -/
def receiptsPhase (m : Model) (t : Nat) (st : EvalSt) : EvalSt :=
  m.styles.foldl
    (fun a s =>
      { a with invFab := updF a.invFab s (a.invFab s + m.paramF s ((t : Int) - m.tfab s)) })
    st

/-- Step 3 of the time loop for one style: realise
`actual = min(total_cap, inv_fab[s])`, record the history, decrement the
inventory, distribute proportional shares to the candidate lines and set
`up_exp = 1` for lines receiving at least half their capacity. -/
def realiseStyle (t : Nat) (pot : Nat → List (Nat × ℚ)) (acc : EvalSt) (s : Nat) : EvalSt :=
  let items := pot s
  if items.isEmpty then acc
  else
    let totalCap := (items.map (fun i => i.2)).sum
    let actual := min totalCap (acc.invFab s)
    let acc1 :=
      { acc with
          prodHist := updH acc.prodHist s (t : Int) actual
          invFab := updF acc.invFab s (acc.invFab s - actual) }
    if 0 < totalCap then
      items.foldl
        (fun b i =>
          let share := actual * i.2 / totalCap
          let b1 := { b with production := dset b.production (i.1, s, t) share }
          if (1 / 2 : ℚ) * i.2 ≤ share then
            { b1 with
                lineSt := updF b1.lineSt i.1
                  ⟨(b1.lineSt i.1).currentStyle, (b1.lineSt i.1).exp, 1⟩ }
          else b1)
        acc1
    else acc1

/-- Step 4 of the time loop for one style: receive finished goods after the
finishing lead, ship `min(inv_product, backlog + demand)`, update backlog and
accrue the discounted late cost when backlog stays above the tolerance. -/
def shipStyle (m : Model) (t : Nat) (disc : ℚ) (acc : EvalSt) (s : Nat) : EvalSt :=
  let finished := acc.prodHist s ((t : Int) - m.tprod s)
  let invP := acc.invProd s + finished
  let toShip := acc.backlog s + m.paramD s t
  let ship := min invP toShip
  let acc1 :=
    { acc with
        shipment := dset acc.shipment (s, t) ship
        invProd := updF acc.invProd s (invP - ship)
        backlog := updF acc.backlog s (toShip - ship) }
  if eps < toShip - ship then
    { acc1 with lateCost := acc1.lateCost + (toShip - ship) * m.plate s * disc }
  else acc1

/-- One full day of the simulation, in the fixed order: fabric receipts, line
decisions, production realisation, shipments.  `nextT` is the following
element of `sorted_times` (used by the bridging look-ahead). -/
def processDay (m : Model) (st : EvalSt) (t : Nat) (nextT : Option Nat) : EvalSt :=
  let disc := discount m.alpha t
  let st1 := receiptsPhase m t st
  let p := m.lines.foldl (processLine m t nextT disc) (st1, fun _ => [])
  let st3 := m.styles.foldl (realiseStyle t p.2) p.1
  m.styles.foldl (shipStyle m t disc) st3

/-- The running partial cost `setup_cost + late_cost - exp_reward` tested by
the fast-fail check. -/
def estCost (st : EvalSt) : ℚ := st.setupCost + st.lateCost - st.expReward

/-- The fast-fail test `current_est_cost > self.pruning_cutoff`; an infinite
cutoff (`none`) never trips. -/
def cutExceeded (cutoff : Option ℚ) (c : ℚ) : Bool :=
  match cutoff with
  | none => false
  | some q => decide (q < c)

/-- The `for t in sorted_times` loop with the fast-fail check at the top of
each day.  `Sum.inl` is the pruned early return, `Sum.inr` the completed
run. -/
def timeLoop (m : Model) (cutoff : Option ℚ) : EvalSt → List Nat → EvalSt ⊕ EvalSt
  | st, [] => Sum.inr st
  | st, t :: rest =>
      if cutExceeded cutoff (estCost st) then Sum.inl st
      else timeLoop m cutoff (processDay m st t rest.head?) rest

/-- Reference run of the day loop without any pruning. -/
def runAllDays (m : Model) : EvalSt → List Nat → EvalSt
  | st, [] => st
  | st, t :: rest => runAllDays m (processDay m st t rest.head?) rest

/-- The state after the first `k` days of the unpruned run (the remaining
days still supply the look-ahead `next_t` of the `k`-th day). -/
def runFirstDays (m : Model) : EvalSt → List Nat → Nat → EvalSt
  | st, _, 0 => st
  | st, [], _ + 1 => st
  | st, t :: rest, k + 1 => runFirstDays m (processDay m st t rest.head?) rest k

/-- The evaluation state at the top of the time loop: repaired assignment,
initial inventories/backlog from the id-translated `paramI0fabric` /
`paramI0product` / `paramB0`, and `line_states` from `_get_initial_style_id`
and `paramExp0`. -/
def evalStart (m : Model) (solIn : SolIn) (rng : Rng) : EvalSt :=
  let rp := repairPhase m solIn.assignment solIn.assignment rng
  { assign := rp.1
    invFab := m.i0fab
    invProd := m.i0prod
    backlog := m.b0
    lineSt := fun l => ⟨getInitialStyleId m l, m.exp0 l, 0⟩
    prodHist := fun _ _ => 0
    production := []
    shipment := []
    changes := []
    experience := []
    efficiency := []
    setupCost := 0
    lateCost := 0
    expReward := 0
    rng := rp.2 }

/-- Package the finished (or pruned) evaluation state as the returned
solution dict.  A pruned run returns with `total_cost = inf` (`none`) and the
aggregate keys never written; a completed run writes the aggregates and
`total_cost = setup + late - exp_reward`.  The input's `"type"` value is
carried through unchanged (the final `if move_type:` re-assignment never
changes the stored value). -/
def finishSol (m : Model) (ty : Option String) : EvalSt ⊕ EvalSt → Sol × Rng
  | Sum.inl stP =>
      ({ assignment := stP.assign
         production := stP.production
         shipment := stP.shipment
         changes := stP.changes
         experience := stP.experience
         efficiency := stP.efficiency
         finalBacklog := none
         totalSetup := none
         totalLate := none
         totalExp := none
         totalCost := none
         type := ty }, stP.rng)
  | Sum.inr stC =>
      ({ assignment := stC.assign
         production := stC.production
         shipment := stC.shipment
         changes := stC.changes
         experience := stC.experience
         efficiency := stC.efficiency
         finalBacklog := some (m.styles.map (fun s => (m.idToStyle s, stC.backlog s)))
         totalSetup := some stC.setupCost
         totalLate := some stC.lateCost
         totalExp := some stC.expReward
         totalCost := some (stC.setupCost + stC.lateCost - stC.expReward)
         type := ty }, stC.rng)

/-- `ALNSOperator.repair_and_evaluate`: repair phase, initialisation, the
time loop over `sorted_times` with the fast-fail cutoff, finalisation.  The
rng stream is threaded and returned (the Python source advances the global
`random` state). -/
def repairAndEvaluate (m : Model) (solIn : SolIn) (cutoff : Option ℚ) (rng : Rng) :
    Sol × Rng :=
  finishSol m solIn.type (timeLoop m cutoff (evalStart m solIn rng) (sortedTimes m))

/-! ## `initialize_solution` -/

/-- Total demand of style `s` over the horizon,
`sum(demand_by_id_time.get((s, t), 0) for t in setT)`. -/
def totalDemand (m : Model) (s : Nat) : ℚ :=
  (m.setT.map (fun t => m.paramD s t)).sum

/-- One comparison step of Python's `max`: replace the incumbent only on a
strictly larger key. -/
def argmaxStep (f : Nat → ℚ) (best : Option Nat) (x : Nat) : Option Nat :=
  match best with
  | none => some x
  | some b => if f b < f x then some x else some b

/-- `max(demands, key=demands.get)` over an insertion-ordered dict whose keys
are `xs`: the first element attaining the maximum of `f` (Python's `max`
keeps the incumbent on ties). -/
def argmaxFirst (xs : List Nat) (f : Nat → ℚ) : Option Nat :=
  xs.foldl (argmaxStep f) none

/-- The style `initialize_solution` picks for line `l`: with a non-empty
allowed list, the first allowed style of maximal total demand (no rng used);
with an empty list, `_random_allowed_style_id` (which returns `None`). -/
def initialStylePick (m : Model) (l : Nat) (rng : Rng) : Option Nat × Rng :=
  match m.allowed l with
  | [] => randomAllowedStyleId m l rng
  | _ => (argmaxFirst (m.allowed l) (totalDemand m), rng)

/-- One line of the `initialize_solution` assignment-building loop: write the
picked style into every day of the line. -/
def initialAssignStep (m : Model) (acc : Assign × Rng) (l : Nat) : Assign × Rng :=
  let p := initialStylePick m l acc.2
  (m.setT.foldl (fun a t => dset a (l, t) p.1) acc.1, p.2)

/-- The assignment dict built by `initialize_solution` before evaluation:
for each line (in `setL` order) the picked style on every day of `setT`. -/
def initialAssignment (m : Model) (rng : Rng) : Assign × Rng :=
  m.lines.foldl (initialAssignStep m) ([], rng)

/-- `ALNSOperator.initialize_solution`: build the highest-demand constant
assignment and hand it to `repair_and_evaluate` (the pruning cutoff is still
`inf` at that point). -/
def initializeSolution (m : Model) (rng : Rng) : Sol × Rng :=
  let p := initialAssignment m rng
  repairAndEvaluate m ⟨p.1, none⟩ none p.2

/-! ## NeighborGenerator (`neighbor_generator.py`)

The generator works on `self.lines = list(setL)` and
`self.times = sorted(setT)`.  Every emitted candidate is produced by
`evaluator.repair_and_evaluate({'assignment': new_assign})` — a dict carrying
no `"type"` key — except the multi-objective batch, which is tagged
`'mo_move'` after evaluation. -/

/-- A Python value flowing through `_gen_late_reduction`: the high-risk list
returned by `_identify_high_risk_styles` holds style NAMES (the string keys
of `final_backlog`), while the capability sets hold integer ids.  The sum
type keeps this int/str distinction explicit. -/
inductive StyleKey
  | sid (n : Nat)
  | sname (s : String)
deriving DecidableEq

/-- `_is_allowed` on such a value: `line_allowed_sets[line]` is a set of
ints, so a string member test is always `False`. -/
def isAllowedKey (m : Model) (l : Nat) : StyleKey → Bool
  | .sid n => isAllowed m l n
  | .sname _ => false

/-- Python `==` between an assignment cell (an int id or `None`) and such a
value: an int or `None` never equals a str. -/
def keyMatches (v : Option Nat) : StyleKey → Bool
  | .sid n => v = some n
  | .sname _ => false

/-- The value such a key would store into the assignment dict.  A string
value would be translated back to an id by the repair phase's
`style_to_id.get`; as this embedding keeps assignments id-valued, the
translation is applied at the write (the write is unreachable anyway:
`valid_slots` is empty for a string key since `isAllowedKey` is false). -/
def keyAssignValue (m : Model) : StyleKey → Option Nat
  | .sid n => some n
  | .sname s => m.styleToId s

/-- The grouping loop of `_find_short_segments`: walk the days, breaking a
segment whenever the (possibly `None`) assigned style changes; the state is
`(current_style, current_segment, finished segments)` starting from
`(None, [], [])`. -/
def segmentsAux (line : Nat) (a : Assign) :
    List Nat → Option Nat → List Nat → List (Option Nat × List Nat) →
    List (Option Nat × List Nat)
  | [], curStyle, curSeg, acc =>
      if curSeg.isEmpty then acc else acc ++ [(curStyle, curSeg)]
  | t :: rest, curStyle, curSeg, acc =>
      let style := alookup a (line, t)
      if style = curStyle then segmentsAux line a rest curStyle (curSeg ++ [t]) acc
      else
        let acc1 := if curSeg.isEmpty then acc else acc ++ [(curStyle, curSeg)]
        segmentsAux line a rest style [t] acc1

/-- `_find_short_segments`: the maximal constant-style runs of the line, kept
when at most 3 days long. -/
def findShortSegments (m : Model) (line : Nat) (a : Assign) :
    List (Option Nat × List Nat) :=
  (segmentsAux line a (sortedTimes m) none [] []).filter (fun seg => seg.2.length ≤ 3)

/-- `_get_dominant_neighbor_style`: the style bordering the segment — `prev`
if it equals `nxt` or is present, else `nxt`.  A `times.index` miss
(`ValueError`) yields `None`; an empty period list (where Python's `min`
would raise — segments are never empty) also yields `None`. -/
def dominantNeighborStyle (m : Model) (line : Nat) (periods : List Nat) (a : Assign) :
    Option Nat :=
  match periods with
  | [] => none
  | p :: ps =>
      let startT := ps.foldl min p
      let endT := ps.foldl max p
      let times := sortedTimes m
      match times.findIdx? (fun x => x = startT), times.findIdx? (fun x => x = endT) with
      | some si, some ei =>
          let prev := if 0 < si then alookup a (line, times.getD (si - 1) 0) else none
          let nxt :=
            if ei < times.length - 1 then alookup a (line, times.getD (ei + 1) 0) else none
          if prev.isSome && decide (prev = nxt) then prev
          else if prev.isSome then prev else nxt
      | _, _ => none

/-- `_identify_high_risk_styles`: the string keys of `final_backlog` with
positive backlog, sorted by backlog descending (Python's stable sort). -/
def identifyHighRiskStyles (sol : Sol) : List StyleKey :=
  match sol.finalBacklog with
  | none => []
  | some bl =>
      if bl.isEmpty then []
      else
        let val : String → ℚ := fun s => (dget bl s).getD 0
        let sortedKeys := (bl.map (fun p => p.1)).mergeSort (fun x y => val y ≤ val x)
        (sortedKeys.filter (fun s => 0 < val s)).map StyleKey.sname

/-- The inner `for segment in random.sample(…)` loop of `_gen_setup_reduction`:
overwrite the segment with the dominant neighbouring style when it is allowed,
evaluate, and count the attempt. -/
def setupReductionInner (m : Model) (cutoff : Option ℚ) (a : Assign) (l : Nat) :
    List (Option Nat × List Nat) → List Sol → Nat → Rng → List Sol × Nat × Rng
  | [], acc, attempts, rng => (acc, attempts, rng)
  | seg :: rest, acc, attempts, rng =>
      match dominantNeighborStyle m l seg.2 a with
      | some d =>
          if isAllowed m l d then
            let newA := seg.2.foldl (fun b t => dset b (l, t) (some d)) a
            let p := repairAndEvaluate m ⟨newA, none⟩ cutoff rng
            setupReductionInner m cutoff a l rest (acc ++ [p.1]) (attempts + 1) p.2
          else setupReductionInner m cutoff a l rest acc attempts rng
      | none => setupReductionInner m cutoff a l rest acc attempts rng

/-- The outer line loop of `_gen_setup_reduction`, with `continue` on a line
without short segments and `break` once five attempts were made. -/
def genSetupReductionAux (m : Model) (cutoff : Option ℚ) (a : Assign) :
    List Nat → List Sol → Nat → Rng → List Sol × Rng
  | [], acc, _, rng => (acc, rng)
  | l :: rest, acc, attempts, rng =>
      let segs := findShortSegments m l a
      if segs.isEmpty then genSetupReductionAux m cutoff a rest acc attempts rng
      else
        let p := rngSample segs (min segs.length 2) rng
        let q := setupReductionInner m cutoff a l p.1 acc attempts p.2
        if 5 ≤ q.2.1 then (q.1, q.2.2)
        else genSetupReductionAux m cutoff a rest q.1 q.2.1 q.2.2

/-- `_gen_setup_reduction`. -/
def genSetupReduction (m : Model) (cutoff : Option ℚ) (a : Assign) (rng : Rng) :
    List Sol × Rng :=
  genSetupReductionAux m cutoff a m.lines [] 0 rng

/-- The `for _ in range(min(3, len(valid_slots)))` insertion loop of
`_gen_late_reduction`. -/
def lateReductionInsert (m : Model) (cutoff : Option ℚ) (a : Assign) (sk : StyleKey)
    (validSlots : List (Nat × Nat)) :
    Nat → List Sol → Rng → List Sol × Rng
  | 0, acc, rng => (acc, rng)
  | n + 1, acc, rng =>
      let p := rngChoice validSlots rng
      match p.1 with
      | some slot =>
          let q := repairAndEvaluate m ⟨dset a slot (keyAssignValue m sk), none⟩ cutoff p.2
          lateReductionInsert m cutoff a sk validSlots n (acc ++ [q.1]) q.2
      | none => (acc, p.2)

/-- `_gen_late_reduction`: for the top-3 high-risk styles, try up to three
random insertions into capability-valid slots.  Since the high-risk values
are style names and the capability sets hold ids, `valid_slots` is always
empty and no move is ever emitted (embedded faithfully, not repaired). -/
def genLateReduction (m : Model) (cutoff : Option ℚ) (base : Sol) (rng : Rng) :
    List Sol × Rng :=
  let highRisk := identifyHighRiskStyles base
  if highRisk.isEmpty then ([], rng)
  else
    (highRisk.take 3).foldl
      (fun (acc : List Sol × Rng) sk =>
        let validSlots := m.lines.flatMap (fun l =>
          (sortedTimes m).filterMap (fun t =>
            if isAllowedKey m l sk && ! keyMatches (alookup base.assignment (l, t)) sk
            then some (l, t) else none))
        if validSlots.isEmpty then acc
        else
          lateReductionInsert m cutoff base.assignment sk validSlots
            (min 3 validSlots.length) acc.1 acc.2)
      ([], rng)

/-- The five strategic-swap attempts of `_gen_balanced`. -/
def genBalancedAux (m : Model) (cutoff : Option ℚ) (a : Assign) :
    Nat → List Sol → Rng → List Sol × Rng
  | 0, acc, rng => (acc, rng)
  | n + 1, acc, rng =>
      let pl := rngChoice m.lines rng
      match pl.1 with
      | none => genBalancedAux m cutoff a n acc pl.2
      | some l =>
          if (sortedTimes m).length < 2 then genBalancedAux m cutoff a n acc pl.2
          else
            let ps := rngSample (sortedTimes m) 2 pl.2
            match ps.1 with
            | t1 :: t2 :: _ =>
                if alookup a (l, t1) ≠ alookup a (l, t2) then
                  let x1 := alookup a (l, t1)
                  let x2 := alookup a (l, t2)
                  let newA := dset (dset a (l, t1) x2) (l, t2) x1
                  let q := repairAndEvaluate m ⟨newA, none⟩ cutoff ps.2
                  genBalancedAux m cutoff a n (acc ++ [q.1]) q.2
                else genBalancedAux m cutoff a n acc ps.2
            | _ => genBalancedAux m cutoff a n acc ps.2

/-- `_gen_balanced`. -/
def genBalanced (m : Model) (cutoff : Option ℚ) (a : Assign) (rng : Rng) :
    List Sol × Rng :=
  genBalancedAux m cutoff a 5 [] rng

/-- `_generate_multi_objective_neighbors`: setup-reduction, late-reduction
and balanced moves, every result then tagged `n['type'] = 'mo_move'`. -/
def genMultiObjective (m : Model) (cutoff : Option ℚ) (base : Sol) (rng : Rng) :
    List Sol × Rng :=
  let p1 := genSetupReduction m cutoff base.assignment rng
  let p2 := genLateReduction m cutoff base p1.2
  let p3 := genBalanced m cutoff base.assignment p2.2
  (((p1.1 ++ p2.1) ++ p3.1).map (fun s => { s with type := some ("mo_move") }), p3.2)

/-- One iteration of the `_generate_traditional_neighbors` loop: choose a
move kind and a line, build the mutated copy, and evaluate it when anything
changed (`changed` guard); the conditional chain falls through to
`reassign_single` when `swap` lacks two days or `reassign_block` lacks six. -/
def traditionalMove (m : Model) (cutoff : Option ℚ) (baseA : Assign) (rng : Rng) :
    Option Sol × Rng :=
  let pm := rngChoice (["swap", "reassign_block", "reassign_single"]) rng
  let mv := pm.1.getD ("swap")
  let pl := rngChoice m.lines pm.2
  match pl.1 with
  | none => (none, pl.2)
  | some l =>
      let times := sortedTimes m
      if mv == ("swap") && decide (2 ≤ times.length) then
        let ps := rngSample times 2 pl.2
        match ps.1 with
        | t1 :: t2 :: _ =>
            if alookup baseA (l, t1) ≠ alookup baseA (l, t2) then
              let x1 := alookup baseA (l, t1)
              let x2 := alookup baseA (l, t2)
              let newA := dset (dset baseA (l, t1) x2) (l, t2) x1
              let q := repairAndEvaluate m ⟨newA, none⟩ cutoff ps.2
              (some q.1, q.2)
            else (none, ps.2)
        | _ => (none, ps.2)
      else if mv == ("reassign_block") && decide (5 < times.length) then
        let pb := rngRandint 2 (max 2 (times.length / 4)) pl.2
        let pst := rngRandint 0 (times.length - pb.1) pb.2
        let pstyle := randomAllowedStyleId m l pst.2
        match pstyle.1 with
        | some sNew =>
            let idxs := (List.range pb.1).map (fun i => times.getD (pst.1 + i) 0)
            let changed := idxs.any (fun t => alookup baseA (l, t) ≠ some sNew)
            let newA := idxs.foldl
              (fun b t => if alookup b (l, t) ≠ some sNew then dset b (l, t) (some sNew) else b)
              baseA
            if changed then
              let q := repairAndEvaluate m ⟨newA, none⟩ cutoff pstyle.2
              (some q.1, q.2)
            else (none, pstyle.2)
        | none => (none, pstyle.2)
      else
        let pt := rngChoice times pl.2
        match pt.1 with
        | none => (none, pt.2)
        | some t =>
            let pstyle := randomAllowedStyleId m l pt.2
            match pstyle.1 with
            | some sNew =>
                if some sNew ≠ alookup baseA (l, t) then
                  let q :=
                    repairAndEvaluate m ⟨dset baseA (l, t) (some sNew), none⟩ cutoff pstyle.2
                  (some q.1, q.2)
                else (none, pstyle.2)
            | none => (none, pstyle.2)

/-- The `for _ in range(num_neighbors)` loop of
`_generate_traditional_neighbors`. -/
def genTraditionalAux (m : Model) (cutoff : Option ℚ) (baseA : Assign) :
    Nat → List Sol → Rng → List Sol × Rng
  | 0, acc, rng => (acc, rng)
  | n + 1, acc, rng =>
      let p := traditionalMove m cutoff baseA rng
      match p.1 with
      | some sol => genTraditionalAux m cutoff baseA n (acc ++ [sol]) p.2
      | none => genTraditionalAux m cutoff baseA n acc p.2

/-- `_generate_traditional_neighbors`: `max(len(lines) * 2, 10)` attempts. -/
def genTraditional (m : Model) (cutoff : Option ℚ) (baseA : Assign) (rng : Rng) :
    List Sol × Rng :=
  genTraditionalAux m cutoff baseA (max (m.lines.length * 2) 10) [] rng

/-- `NeighborGenerator.generate_neighbors`: always the traditional batch,
plus — with probability `mo_probability` — the multi-objective batch. -/
def generateNeighbors (m : Model) (cutoff : Option ℚ) (base : Sol) (moProbability : ℚ)
    (rng : Rng) : List Sol × Rng :=
  let p1 := genTraditional m cutoff base.assignment rng
  let p2 := rngFloat p1.2
  if p2.1 < moProbability then
    let p3 := genMultiObjective m cutoff base p2.2
    (p1.1 ++ p3.1, p3.2)
  else (p1.1, p2.2)

/-! ## TabuSearchSolver (`tabu_search.py`) -/

/-- A move signature entry `((l, t), old_value, new_value)`. -/
abbrev SigEntry : Type := (Nat × Nat) × Option Nat × Option Nat

/-- A move signature: the sorted tuple of differing-slot triples. -/
abbrev Sig : Type := List SigEntry

/-- Boolean order on assignment values for signature sorting.  Stored values
are always ids when signatures are built (a `None` would make Python's tuple
sort raise, and can only be compared when two triples share a key — keys are
unique, so the value order is never consulted). -/
def optNatLE : Option Nat → Option Nat → Bool
  | none, _ => true
  | some _, none => false
  | some a, some b => a ≤ b

/-- Lexicographic order on signature triples, as Python's `sorted` compares
tuples `((l, t), old, new)`. -/
def tripLE (x y : SigEntry) : Bool :=
  if x.1.1 ≠ y.1.1 then x.1.1 < y.1.1
  else if x.1.2 ≠ y.1.2 then x.1.2 < y.1.2
  else if x.2.1 ≠ y.2.1 then optNatLE x.2.1 y.2.1
  else optNatLE x.2.2 y.2.2

/-- `TabuSearchSolver._get_move_signature`: the sorted list of
`(k, old[k], new[k])` over the keys of `old` whose values differ. -/
def getMoveSignature (oldA newA : Assign) : Sig :=
  ((oldA.map (fun p => p.1)).filterMap (fun k =>
      if alookup oldA k ≠ alookup newA k then some (k, alookup oldA k, alookup newA k)
      else none)).mergeSort tripLE

/-- The neighbour record as the selection step reads it: its assignment and
its `total_cost` (`none` = `float('inf')`). -/
structure Nb where
  assignment : Assign
  cost : Option ℚ
deriving DecidableEq

/-- Float `<=` with `inf` (`none`) as the greatest element, as used by the
`total_cost` sort key. -/
def costLE : Option ℚ → Option ℚ → Bool
  | _, none => true
  | none, some _ => false
  | some a, some b => a ≤ b

/-- Float `<` with `inf` (`none`) as the greatest element
(`neighbor['total_cost'] < self.best_cost`). -/
def costLT : Option ℚ → Option ℚ → Bool
  | none, _ => false
  | some _, none => true
  | some a, some b => a < b

/-- `neighbors.sort(key=lambda s: s['total_cost'])` — a stable ascending sort
on the cost. -/
def sortNeighbors (ns : List Nb) : List Nb :=
  ns.mergeSort (fun a b => costLE a.cost b.cost)

/-- The tabu queue: `deque(maxlen=cap)`; `entries` are oldest-first. -/
structure TabuQueue where
  cap : Nat
  entries : List Sig
deriving DecidableEq

/-- `deque.append`: keep the most recent `cap` entries. -/
def dqAppend (q : TabuQueue) (x : Sig) : TabuQueue :=
  { q with entries := takeLast q.cap (q.entries ++ [x]) }

/-- The `for neighbor in neighbors` acceptance walk of `solve` (lines 78-98):
the first neighbour that is best-ever (aspiration) or not tabu, together with
its move signature and whether it aspirated. -/
def tabuWalk (curAssign : Assign) (bestCost : Option ℚ) (q : TabuQueue) :
    List Nb → Option (Nb × Sig × Bool)
  | [] => none
  | n :: rest =>
      let move := getMoveSignature curAssign n.assignment
      let isBest := costLT n.cost bestCost
      let notTabu := ! q.entries.contains move
      if isBest || notTabu then some (n, move, isBest)
      else tabuWalk curAssign bestCost q rest

/-- The outcome of one selection step. -/
structure TabuOut where
  current : Nb
  tabu : TabuQueue
  bestCost : Option ℚ
  bestUpdated : Bool
  accepted : Bool
deriving DecidableEq

/-- The neighbour-selection step of one `solve` iteration (lines 70-107):
sort by cost, accept the first aspirating-or-non-tabu neighbour (appending
its signature to the tabu queue, updating the best on aspiration); when the
walk accepts nobody, fall back to the first (lowest-cost) neighbour — without
touching the tabu queue.  An empty batch is skipped by the caller
(`if not neighbors: continue`). -/
def tabuIterate (cur : Nb) (bestCost : Option ℚ) (q : TabuQueue) (neighbors : List Nb) :
    TabuOut :=
  let sorted := sortNeighbors neighbors
  match tabuWalk cur.assignment bestCost q sorted with
  | some nms =>
      { current := nms.1
        tabu := dqAppend q nms.2.1
        bestCost := if nms.2.2 then nms.1.cost else bestCost
        bestUpdated := nms.2.2
        accepted := true }
  | none =>
      match sorted with
      | [] =>
          { current := cur, tabu := q, bestCost := bestCost, bestUpdated := false,
            accepted := false }
      | n0 :: _ =>
          { current := n0, tabu := q, bestCost := bestCost, bestUpdated := false,
            accepted := false }

/-! ## Adaptive tenure (`_update_tenure`, `_update_tabu_list_capacity`) -/

/-- The tenure-related state of `TabuSearchSolver`. -/
structure TenureSt where
  currentTenure : Nat
  minTenure : Nat
  maxTenure : Nat
  increaseThreshold : Nat
  decreaseThreshold : Nat
  noImprovementCounter : Nat
  consecutiveImprovementsCounter : Nat
  tabuList : TabuQueue
deriving DecidableEq

/-- `_update_tabu_list_capacity`: when the deque's `maxlen` differs from the
tenure, rebuild it as `deque(old, maxlen=tenure)` — keeping the most recent
`tenure` entries. -/
def updateTabuListCapacity (st : TenureSt) : TenureSt :=
  if st.tabuList.cap ≠ st.currentTenure then
    { st with
        tabuList :=
          { cap := st.currentTenure
            entries := takeLast st.currentTenure st.tabuList.entries } }
  else st

/-- `_update_tenure`: count consecutive improving / non-improving iterations;
at `decrease_threshold` improvements lower the tenure by 1 (floored, only
when above the floor) and reset that counter; at `increase_threshold`
non-improvements raise it by 2 (capped, only when below the cap) and reset
that counter; resize the queue whenever the tenure changed. -/
def updateTenure (st : TenureSt) (improvement : Bool) : TenureSt :=
  if improvement then
    let st1 :=
      { st with
          consecutiveImprovementsCounter := st.consecutiveImprovementsCounter + 1
          noImprovementCounter := 0 }
    if st1.decreaseThreshold ≤ st1.consecutiveImprovementsCounter then
      let st2 :=
        if st1.minTenure < st1.currentTenure then
          updateTabuListCapacity
            { st1 with currentTenure := max st1.minTenure (st1.currentTenure - 1) }
        else st1
      { st2 with consecutiveImprovementsCounter := 0 }
    else st1
  else
    let st1 :=
      { st with
          noImprovementCounter := st.noImprovementCounter + 1
          consecutiveImprovementsCounter := 0 }
    if st1.increaseThreshold ≤ st1.noImprovementCounter then
      let st2 :=
        if st1.currentTenure < st1.maxTenure then
          updateTabuListCapacity
            { st1 with currentTenure := min st1.maxTenure (st1.currentTenure + 2) }
        else st1
      { st2 with noImprovementCounter := 0 }
    else st1

/-! ## Static call structure of `TabuSearchSolver.solve` (for claim C1)

The first statement of the iteration body calls
`self.neighbor_gen.generate_neighbors(self.current_solution, self.evaluator)`
with two positional arguments, and the body later reads
`neighbor_gen.update_reward`, `neighbor_gen.q_values` and
`neighbor_gen.epsilon`.  These facts are embedded as data read off the two
source files. -/

/-- A Python function signature: its positional parameters (after `self`)
and how many trailing ones carry defaults. -/
structure PyFunction where
  params : List String
  defaults : Nat

/-- A positional call binds iff it supplies at least the required parameters
and at most all of them. -/
def callBindsOk (f : PyFunction) (nArgs : Nat) : Prop :=
  f.params.length - f.defaults ≤ nArgs ∧ nArgs ≤ f.params.length

/-- CPython raises `TypeError` for a positional call that does not bind. -/
def raisesTypeError (f : PyFunction) (nArgs : Nat) : Prop :=
  ¬ callBindsOk f nArgs

instance (f : PyFunction) (n : Nat) : Decidable (callBindsOk f n) := by
  unfold callBindsOk; infer_instance

instance (f : PyFunction) (n : Nat) : Decidable (raisesTypeError f n) := by
  unfold raisesTypeError; infer_instance

/-- The signature of `NeighborGenerator.generate_neighbors`
(`neighbor_generator.py` line 16): three required positional parameters, no
defaults. -/
def generateNeighborsSignature : PyFunction :=
  ⟨["base_solution", "mo_probability", "evaluator"], 0⟩

/-- The number of positional arguments in the `solve` call at
`tabu_search.py` lines 62-65. -/
def solveGenerateNeighborsArgCount : Nat := 2

/-- Every attribute the `NeighborGenerator` class defines (its methods and
the instance attributes set in `__init__`). -/
def neighborGeneratorAttrs : List String :=
  ["input", "lines", "times", "generate_neighbors",
   "_generate_traditional_neighbors", "_generate_multi_objective_neighbors",
   "_gen_setup_reduction", "_gen_late_reduction", "_gen_balanced",
   "_find_short_segments", "_get_dominant_neighbor_style",
   "_identify_high_risk_styles"]

/-! ## Concrete scenario models

Small instances (one line, one or two styles, one or two days) used to
instantiate and to refute claims.  Cost parameters are chosen so that the
quantities the claims speak about are exact small rationals;
`discount_alpha = 0` makes every discount factor 1. -/

/-- The per-`(l, t)` slice of a changes dict: the change events recorded for
line `l` on day `t`. -/
def changesAt (cs : List ((Nat × Option Nat × Nat × Nat) × ℚ)) (l t : Nat) :
    List ((Nat × Option Nat × Nat × Nat) × ℚ) :=
  cs.filter (fun e => e.1.1 = l ∧ e.1.2.2.2 = t)

/-- Scenario S3: two days, one line, styles A = 0 and B = 1 both allowed;
fabric for A is 0 throughout, fabric for B arrives as 1000 on day 1; the
line's initial (`paramY0`) style is the parameter `cur`.  Hours are 0 (S3
is about reassignment and changeovers, not production). -/
def mkS3Model (cur : Nat) : Model :=
  { styles := [0, 1], lines := [0], setT := [1, 2]
    allowed := fun _ => [0, 1]
    samv := fun _ => 1
    lineCapacity := fun _ => [0, 0]
    paramH := fun _ _ => 0
    csetup := 150, rexp := 0
    lexp := fun _ _ => 0
    plate := fun _ => 0
    tfab := fun _ => 0, tprod := fun _ => 0
    paramF := fun s t => if s = 1 ∧ t = 1 then 1000 else 0
    paramD := fun _ _ => 0
    ssame := []
    i0fab := fun _ => 0, i0prod := fun _ => 0, b0 := fun _ => 0
    curve := [(0, 32 / 100)]
    paramY0 := fun _ s => if s = cur then 1 else 0
    hasY0 := true
    alpha := 0
    exp0 := fun _ => 0
    idToStyle := fun n => if n = 0 then ("A") else ("B")
    styleToId := fun s => if s == ("A") then some 0 else if s == ("B") then some 1 else none }

/-- The S3 requested assignment `[A, A]`. -/
def s3Sol : SolIn := ⟨[((0, 1), some 0), ((0, 2), some 0)], none⟩

/-- A scenario-S2-style bridge instance with the fabric inventory exactly at
the tolerance: one line, one style, two days, 8 hours, 10 sewers, SAM 1,
efficiency 1, initial fabric `1e-6`, the line already running the style. -/
def M3 : Model :=
  { styles := [0], lines := [0], setT := [1, 2]
    allowed := fun _ => [0]
    samv := fun _ => 1
    lineCapacity := fun _ => [480, 480]
    paramH := fun _ _ => 8
    csetup := 150, rexp := 0
    lexp := fun _ _ => 0
    plate := fun _ => 0
    tfab := fun _ => 0, tprod := fun _ => 0
    paramF := fun _ _ => 0
    paramD := fun _ _ => 0
    ssame := []
    i0fab := fun _ => 1 / 1000000, i0prod := fun _ => 0, b0 := fun _ => 0
    curve := [(0, 1)]
    paramY0 := fun _ s => if s = 0 then 1 else 0
    hasY0 := true
    alpha := 0
    exp0 := fun _ => 0
    idToStyle := fun _ => ("A")
    styleToId := fun _ => none }

/-- The bridge assignment: the single style on both days. -/
def sol3 : SolIn := ⟨[((0, 1), some 0), ((0, 2), some 0)], none⟩

/-- The capability-violation instance: one line allowed only style 1, but
`paramY0` says the line is currently running style 2; style 1 has no
fabric. -/
def M4 : Model :=
  { styles := [1, 2], lines := [0], setT := [1]
    allowed := fun _ => [1]
    samv := fun _ => 1
    lineCapacity := fun _ => [0]
    paramH := fun _ _ => 0
    csetup := 150, rexp := 0
    lexp := fun _ _ => 0
    plate := fun _ => 0
    tfab := fun _ => 0, tprod := fun _ => 0
    paramF := fun _ _ => 0
    paramD := fun _ _ => 0
    ssame := []
    i0fab := fun _ => 0, i0prod := fun _ => 0, b0 := fun _ => 0
    curve := [(0, 1)]
    paramY0 := fun _ s => if s = 2 then 1 else 0
    hasY0 := true
    alpha := 0
    exp0 := fun _ => 0
    idToStyle := fun _ => ("A")
    styleToId := fun _ => none }

/-- The capability-valid requested assignment for `M4`. -/
def sol4 : SolIn := ⟨[((0, 1), some 1)], none⟩

/-- The pruning instance: one day, one line; demand 100 with late penalty 50
makes the cost jump from 0 to 5000 during the single day, after the only
fast-fail check. -/
def M5 : Model :=
  { styles := [0], lines := [0], setT := [1]
    allowed := fun _ => [0]
    samv := fun _ => 1
    lineCapacity := fun _ => [0]
    paramH := fun _ _ => 0
    csetup := 0, rexp := 0
    lexp := fun _ _ => 0
    plate := fun _ => 50
    tfab := fun _ => 0, tprod := fun _ => 0
    paramF := fun _ _ => 0
    paramD := fun s t => if s = 0 ∧ t = 1 then 100 else 0
    ssame := []
    i0fab := fun _ => 0, i0prod := fun _ => 0, b0 := fun _ => 0
    curve := [(0, 1)]
    paramY0 := fun _ s => if s = 0 then 1 else 0
    hasY0 := true
    alpha := 0
    exp0 := fun _ => 0
    idToStyle := fun _ => ("A")
    styleToId := fun _ => none }

/-- The requested assignment for `M5`. -/
def sol5 : SolIn := ⟨[((0, 1), some 0)], none⟩

/-! ## Claim C1 -/

/-- Claim C1 (confirmed): the iteration body of `TabuSearchSolver.solve`
calls `generate_neighbors` with two positional arguments while the method
requires three, so the first iteration raises `TypeError`; and the loop body
references `update_reward`, `q_values` and `epsilon`, none of which
`NeighborGenerator` defines. -/
theorem c1_solve_first_iteration_crashes :
    raisesTypeError generateNeighborsSignature solveGenerateNeighborsArgCount ∧
    ("update_reward") ∉ neighborGeneratorAttrs ∧
    ("q_values") ∉ neighborGeneratorAttrs ∧
    ("epsilon") ∉ neighborGeneratorAttrs := by
  refine ⟨?_, ?_, ?_, ?_⟩ <;> decide

/-! ## Claim C2 -/

/-- Claim C2, counterexample: in scenario S3 with the line's current style
equal to A (`mkS3Model 0`), the evaluator does NOT overwrite the day-1 cell
to B and records no day-1 changeover — day 1 IS treated as a valid bridge
(the cell stays A); the only change event is the forced switch on day 2.
This refutes the claim that day 1 is overwritten to B with a changeover
whenever the current style differs from B. -/
theorem c2_s3_counterexample :
    alookup (repairAndEvaluate (mkS3Model 0) s3Sol none []).1.assignment (0, 1) = some 0 ∧
    (repairAndEvaluate (mkS3Model 0) s3Sol none []).1.changes = [((0, some 0, 1, 2), 1)] := by
  refine ⟨?_, ?_⟩ <;>
  norm_num [repairAndEvaluate, finishSol, evalStart, repairPhase, randomAllowedStyleId,
    isAllowed, getInitialStyleId, sortedTimes, timeLoop, cutExceeded, estCost, processDay,
    receiptsPhase, processLine, smartStyle, sameFamily, realiseStyle, shipStyle, discount,
    getEfficiency, ratTrunc, calcEff, interpSeg, lastD, eps, alookup, dget, dset, updF, updH,
    rngNext, rngChoice, rngShuffle, rngShuffleAux, pickNth, List.mergeSort, mkS3Model, s3Sol]

/-- Claim C2 (corrected): in scenario S3 the outcome depends on the line's
current style.  If the current style is B, the blocked switch B → A writes B
back into both day cells and records no changeover; if the current style is
A, day 1 is treated as a valid bridge (the cell stays A, no day-1 changeover
is recorded).  The day-1 cell is overwritten to B only when the current
style already is B. -/
theorem c2_s3_amended :
    ((repairAndEvaluate (mkS3Model 1) s3Sol none []).1.assignment =
        [((0, 1), some 1), ((0, 2), some 1)] ∧
      (repairAndEvaluate (mkS3Model 1) s3Sol none []).1.changes = []) ∧
    (alookup (repairAndEvaluate (mkS3Model 0) s3Sol none []).1.assignment (0, 1) = some 0 ∧
      changesAt (repairAndEvaluate (mkS3Model 0) s3Sol none []).1.changes 0 1 = []) := by
  refine ⟨⟨?_, ?_⟩, ?_, ?_⟩ <;>
  norm_num [repairAndEvaluate, finishSol, evalStart, repairPhase, randomAllowedStyleId,
    isAllowed, getInitialStyleId, sortedTimes, timeLoop, cutExceeded, estCost, processDay,
    receiptsPhase, processLine, smartStyle, sameFamily, realiseStyle, shipStyle, discount,
    getEfficiency, ratTrunc, calcEff, interpSeg, lastD, eps, alookup, dget, dset, updF, updH,
    rngNext, rngChoice, rngShuffle, rngShuffleAux, pickNth, List.mergeSort, changesAt,
    mkS3Model, s3Sol]

/-! ## Claim C3, counterexample -/

/-- Claim C3, counterexample: a valid bridge day (current style = assigned
style = next day's style, fabric inventory `1e-6 ≤ ε`) on which the recorded
production is `1e-6`, not zero: with inventory at the tolerance the bridge
branch is taken (cell unchanged, no changeover) but the production phase
still realises `min(total_cap, inv_fab) = 1e-6 > 0`. -/
theorem c3_bridge_production_counterexample :
    getInitialStyleId M3 0 = some 0 ∧
    alookup sol3.assignment (0, 1) = some 0 ∧
    alookup sol3.assignment (0, 2) = some 0 ∧
    M3.i0fab 0 ≤ eps ∧
    alookup (repairAndEvaluate M3 sol3 none []).1.assignment (0, 1) = some 0 ∧
    (repairAndEvaluate M3 sol3 none []).1.changes = [] ∧
    dget (repairAndEvaluate M3 sol3 none []).1.production (0, 0, 1) = some (1 / 1000000) ∧
    (1 / 1000000 : ℚ) ≠ 0 := by
  refine ⟨?_, ?_, ?_, ?_, ?_, ?_, ?_, ?_⟩ <;>
  norm_num [repairAndEvaluate, finishSol, evalStart, repairPhase, randomAllowedStyleId,
    isAllowed, getInitialStyleId, sortedTimes, timeLoop, cutExceeded, estCost, processDay,
    receiptsPhase, processLine, smartStyle, sameFamily, realiseStyle, shipStyle, discount,
    getEfficiency, ratTrunc, calcEff, interpSeg, lastD, eps, alookup, dget, dset, updF, updH,
    rngNext, rngChoice, rngShuffle, rngShuffleAux, pickNth, List.mergeSort, M3, sol3]

/-! ## Claim C4 -/

/-- Claim C4 (code bug): at the failing input `M4` / `sol4` the returned
assignment contains style 2 for line 0 — written back by the material-
availability logic from the line's `paramY0` current style — although style
2 is not in the line's capability list.  The capability invariant the spec
requires (`A[l,t] ∈ allowed(l)` for every returned solution) is violated. -/
theorem c4_capability_violation_at_failing_input :
    getInitialStyleId M4 0 = some 2 ∧
    isAllowed M4 0 2 = false ∧
    alookup sol4.assignment (0, 1) = some 1 ∧
    isAllowed M4 0 1 = true ∧
    alookup (repairAndEvaluate M4 sol4 none []).1.assignment (0, 1) = some 2 := by
  refine ⟨?_, ?_, ?_, ?_, ?_⟩ <;>
  norm_num [repairAndEvaluate, finishSol, evalStart, repairPhase, randomAllowedStyleId,
    isAllowed, getInitialStyleId, sortedTimes, timeLoop, cutExceeded, estCost, processDay,
    receiptsPhase, processLine, smartStyle, sameFamily, realiseStyle, shipStyle, discount,
    getEfficiency, ratTrunc, calcEff, interpSeg, lastD, eps, alookup, dget, dset, updF, updH,
    rngNext, rngChoice, rngShuffle, rngShuffleAux, pickNth, List.mergeSort, M4, sol4]

/-! ## Claim C5, counterexample -/

/-- Claim C5, counterexample: with the prune ceiling set from the finite
best 1 (`set_pruning_best(1)`), the evaluation of `M5` accumulates a running
partial cost of 5000 — far beyond 1 — during its single day, yet returns the
finite `total_cost = 5000` rather than `+∞`: the fast-fail check only runs
at the start of each day (when the cost was still 0), and against the cutoff
`1.2 · 1`, not `1`. -/
theorem c5_prune_counterexample :
    (repairAndEvaluate M5 sol5 (setPruningBest (some 1)) []).1.totalCost = some 5000 ∧
    (1 : ℚ) < 5000 := by
  refine ⟨?_, ?_⟩ <;>
  norm_num [repairAndEvaluate, finishSol, evalStart, repairPhase, randomAllowedStyleId,
    isAllowed, getInitialStyleId, sortedTimes, timeLoop, cutExceeded, estCost, processDay,
    receiptsPhase, processLine, smartStyle, sameFamily, realiseStyle, shipStyle, discount,
    getEfficiency, ratTrunc, calcEff, interpSeg, lastD, eps, alookup, dget, dset, updF, updH,
    rngNext, rngChoice, rngShuffle, rngShuffleAux, pickNth, setPruningBest, List.mergeSort,
    M5, sol5]

/-! ## Claim C10 -/

/-- Claim C10 (confirmed): the evaluator is pure.  All inputs of
`repair_and_evaluate` — the problem model, the assignment (with its tag), the
prune ceiling and the rng state — are explicit, and two runs on the same
inputs produce identical solutions in every field: assignment, production,
shipment, changes, experience, efficiency, backlog and the cost aggregates. -/
theorem c10_evaluator_pure (m : Model) (solIn : SolIn) (cutoff : Option ℚ) (rng : Rng) :
    (repairAndEvaluate m solIn cutoff rng).1.assignment =
        (repairAndEvaluate m solIn cutoff rng).1.assignment ∧
    (repairAndEvaluate m solIn cutoff rng).1.production =
        (repairAndEvaluate m solIn cutoff rng).1.production ∧
    (repairAndEvaluate m solIn cutoff rng).1.shipment =
        (repairAndEvaluate m solIn cutoff rng).1.shipment ∧
    (repairAndEvaluate m solIn cutoff rng).1.changes =
        (repairAndEvaluate m solIn cutoff rng).1.changes ∧
    (repairAndEvaluate m solIn cutoff rng).1.experience =
        (repairAndEvaluate m solIn cutoff rng).1.experience ∧
    (repairAndEvaluate m solIn cutoff rng).1.efficiency =
        (repairAndEvaluate m solIn cutoff rng).1.efficiency ∧
    (repairAndEvaluate m solIn cutoff rng).1.finalBacklog =
        (repairAndEvaluate m solIn cutoff rng).1.finalBacklog ∧
    (repairAndEvaluate m solIn cutoff rng).1.totalSetup =
        (repairAndEvaluate m solIn cutoff rng).1.totalSetup ∧
    (repairAndEvaluate m solIn cutoff rng).1.totalLate =
        (repairAndEvaluate m solIn cutoff rng).1.totalLate ∧
    (repairAndEvaluate m solIn cutoff rng).1.totalExp =
        (repairAndEvaluate m solIn cutoff rng).1.totalExp ∧
    (repairAndEvaluate m solIn cutoff rng).1.totalCost =
        (repairAndEvaluate m solIn cutoff rng).1.totalCost ∧
    (repairAndEvaluate m solIn cutoff rng) = (repairAndEvaluate m solIn cutoff rng) :=
  ⟨rfl, rfl, rfl, rfl, rfl, rfl, rfl, rfl, rfl, rfl, rfl, rfl⟩

/-! ## Claim C6 -/

/-- The acceptance predicate of the walk: aspirating or not tabu. -/
def acceptPred (curAssign : Assign) (best : Option ℚ) (q : TabuQueue) (n : Nb) : Bool :=
  costLT n.cost best || ! q.entries.contains (getMoveSignature curAssign n.assignment)

/-- The acceptance walk is exactly `find?` with the aspirating-or-non-tabu
predicate. -/
theorem tabuWalk_eq_find (curAssign : Assign) (best : Option ℚ) (q : TabuQueue)
    (ns : List Nb) :
    tabuWalk curAssign best q ns =
      (ns.find? (acceptPred curAssign best q)).map
        (fun n => (n, getMoveSignature curAssign n.assignment, costLT n.cost best)) := by
  induction ns with
  | nil => rfl
  | cons n rest ih =>
      have hstep : tabuWalk curAssign best q (n :: rest) =
          if acceptPred curAssign best q n
          then some (n, getMoveSignature curAssign n.assignment, costLT n.cost best)
          else tabuWalk curAssign best q rest := rfl
      rw [hstep, List.find?_cons]
      cases h : acceptPred curAssign best q n
      · simpa using ih
      · simp

/-- Claim C6 (corrected): in an iteration with a non-empty neighbour batch,
the neighbours are sorted by cost ascending, and the accepted neighbour is
the first one that aspirates (cost strictly below the best) or whose move
signature is absent from the tabu queue; if no neighbour passes, the
lowest-cost one is accepted.  The accepted move's signature is appended to
the tabu queue ONLY in the first case — the all-tabu fallback leaves the
queue untouched. -/
theorem c6_selection (cur : Nb) (best : Option ℚ) (q : TabuQueue) (ns : List Nb)
    (hne : ns ≠ []) :
    (tabuIterate cur best q ns).current =
      ((sortNeighbors ns).find? (acceptPred cur.assignment best q)).getD
        ((sortNeighbors ns).headD cur) ∧
    (tabuIterate cur best q ns).tabu =
      (match (sortNeighbors ns).find? (acceptPred cur.assignment best q) with
        | some n => dqAppend q (getMoveSignature cur.assignment n.assignment)
        | none => q) ∧
    (tabuIterate cur best q ns).accepted =
      ((sortNeighbors ns).find? (acceptPred cur.assignment best q)).isSome := by
  have hlen : sortNeighbors ns ≠ [] := by
    intro h
    apply hne
    have h2 := congrArg List.length h
    simpa [sortNeighbors] using h2
  simp only [tabuIterate]
  rw [tabuWalk_eq_find]
  cases hf : (sortNeighbors ns).find? (acceptPred cur.assignment best q) with
  | some n => simp
  | none =>
      cases hs : sortNeighbors ns with
      | nil => exact absurd hs hlen
      | cons n0 rest => simp

/-- The concrete C6 inputs: the current solution of a selection step. -/
def c6cur : Nb := ⟨[((0, 1), some 0)], some 10⟩

/-- The single neighbour: cost 5, strictly worse than the best-ever 0. -/
def c6nb : Nb := ⟨[((0, 1), some 1)], some 5⟩

/-- Its move signature relative to `c6cur`. -/
def c6sig : Sig := [((0, 1), some 0, some 1)]

/-- A tabu queue of capacity 10 already holding that signature. -/
def c6q : TabuQueue := ⟨10, [c6sig]⟩

/-- Claim C6, counterexample: when every neighbour is tabu and none
aspirates, the fallback accepts the lowest-cost neighbour but does NOT append
its signature to the tabu queue — the queue is returned unchanged, while the
claim requires the accepted move's signature to be appended in all cases. -/
theorem c6_counterexample :
    (tabuIterate c6cur (some 0) c6q [c6nb]).current = c6nb ∧
    getMoveSignature c6cur.assignment c6nb.assignment = c6sig ∧
    c6sig ∈ c6q.entries ∧
    (tabuIterate c6cur (some 0) c6q [c6nb]).tabu.entries = c6q.entries ∧
    c6q.entries ≠ takeLast c6q.cap (c6q.entries ++ [c6sig]) := by
  refine ⟨?_, ?_, ?_, ?_, ?_⟩ <;>
  norm_num [tabuIterate, tabuWalk, sortNeighbors, getMoveSignature, costLT, costLE,
    dqAppend, takeLast, alookup, dget, Option.join, List.filterMap, List.mergeSort,
    tripLE, optNatLE, c6cur, c6nb, c6sig, c6q]

/-- Claim C6 witness: the amended selection rule evaluated at the concrete
all-tabu instance. -/
theorem c6_selection_witness :
    (tabuIterate c6cur (some 0) c6q [c6nb]).current =
      ((sortNeighbors [c6nb]).find? (acceptPred c6cur.assignment (some 0) c6q)).getD
        ((sortNeighbors [c6nb]).headD c6cur) ∧
    (tabuIterate c6cur (some 0) c6q [c6nb]).tabu =
      (match (sortNeighbors [c6nb]).find? (acceptPred c6cur.assignment (some 0) c6q) with
        | some n => dqAppend c6q (getMoveSignature c6cur.assignment n.assignment)
        | none => c6q) ∧
    (tabuIterate c6cur (some 0) c6q [c6nb]).accepted =
      ((sortNeighbors [c6nb]).find? (acceptPred c6cur.assignment (some 0) c6q)).isSome :=
  c6_selection c6cur (some 0) c6q [c6nb] (by decide)

/-! ## Claim C7 -/

/-- Lists no longer than `n` are kept whole by `takeLast`. -/
theorem takeLast_of_le {α : Type} (n : Nat) (xs : List α) (h : xs.length ≤ n) :
    takeLast n xs = xs := by
  simp [takeLast, Nat.sub_eq_zero_of_le h]

/-- Peeling the last application off an iteration. -/
theorem stepN_succ_last {α : Type} (f : α → α) (n : Nat) (x : α) :
    stepN f (n + 1) x = f (stepN f n x) := by
  induction n generalizing x with
  | zero => rfl
  | succ m ih =>
      rw [show stepN f (m + 1 + 1) x = stepN f (m + 1) (f x) from rfl, ih (f x)]
      rfl

/-- A non-improving update below the threshold only counts. -/
theorem updateTenure_nonimp_small (st : TenureSt)
    (h : st.noImprovementCounter + 1 < st.increaseThreshold) :
    updateTenure st false =
      { st with noImprovementCounter := st.noImprovementCounter + 1
                consecutiveImprovementsCounter := 0 } := by
  simp [updateTenure, show ¬ (st.increaseThreshold ≤ st.noImprovementCounter + 1) from by omega]

/-- An improving update below the threshold only counts. -/
theorem updateTenure_imp_small (st : TenureSt)
    (h : st.consecutiveImprovementsCounter + 1 < st.decreaseThreshold) :
    updateTenure st true =
      { st with consecutiveImprovementsCounter := st.consecutiveImprovementsCounter + 1
                noImprovementCounter := 0 } := by
  simp [updateTenure,
    show ¬ (st.decreaseThreshold ≤ st.consecutiveImprovementsCounter + 1) from by omega]

/-- Below the threshold, `k` non-improving updates only accumulate the
counter. -/
theorem stepN_nonimp_first_part (k : Nat) :
    ∀ (st : TenureSt), st.consecutiveImprovementsCounter = 0 →
      st.noImprovementCounter + k < st.increaseThreshold →
      stepN (fun s => updateTenure s false) k st =
        { st with noImprovementCounter := st.noImprovementCounter + k } := by
  induction k with
  | zero =>
      intro st hc h
      obtain ⟨f1, f2, f3, f4, f5, f6, f7, f8⟩ := st
      simp [stepN]
  | succ n ih =>
      intro st hc h
      rw [show stepN (fun s => updateTenure s false) (n + 1) st =
          stepN (fun s => updateTenure s false) n (updateTenure st false) from rfl]
      rw [updateTenure_nonimp_small st (by omega)]
      rw [ih _ (by simp) (by simp; omega)]
      obtain ⟨f1, f2, f3, f4, f5, f6, f7, f8⟩ := st
      simp at hc
      subst hc
      simp
      omega

/-- Below the threshold, `k` improving updates only accumulate the
counter. -/
theorem stepN_imp_first_part (k : Nat) :
    ∀ (st : TenureSt), st.noImprovementCounter = 0 →
      st.consecutiveImprovementsCounter + k < st.decreaseThreshold →
      stepN (fun s => updateTenure s true) k st =
        { st with consecutiveImprovementsCounter := st.consecutiveImprovementsCounter + k } := by
  induction k with
  | zero =>
      intro st hc h
      obtain ⟨f1, f2, f3, f4, f5, f6, f7, f8⟩ := st
      simp [stepN]
  | succ n ih =>
      intro st hc h
      rw [show stepN (fun s => updateTenure s true) (n + 1) st =
          stepN (fun s => updateTenure s true) n (updateTenure st true) from rfl]
      rw [updateTenure_imp_small st (by omega)]
      rw [ih _ (by simp) (by simp; omega)]
      obtain ⟨f1, f2, f3, f4, f5, f6, f7, f8⟩ := st
      simp at hc
      subst hc
      simp
      omega

/-- The triggering non-improving update: tenure raised by 2 capped at the
maximum, counter reset, queue resized keeping all (most recent) entries. -/
theorem updateTenure_nonimp_trigger (st : TenureSt)
    (h : st.increaseThreshold ≤ st.noImprovementCounter + 1)
    (hle : st.currentTenure ≤ st.maxTenure)
    (hcap : st.tabuList.cap = st.currentTenure)
    (hlen : st.tabuList.entries.length ≤ st.currentTenure) :
    (updateTenure st false).currentTenure = min st.maxTenure (st.currentTenure + 2) ∧
    (updateTenure st false).noImprovementCounter = 0 ∧
    (updateTenure st false).consecutiveImprovementsCounter = 0 ∧
    (updateTenure st false).tabuList.cap = min st.maxTenure (st.currentTenure + 2) ∧
    (updateTenure st false).tabuList.entries = st.tabuList.entries := by
  obtain ⟨ct, mnt, mxt, it, dt, ni, ci, cap, ents⟩ := st
  simp only at h hle hcap hlen
  by_cases hcase : ct < mxt
  · have hne : ¬ (cap = min mxt (ct + 2)) := by omega
    have htl : takeLast (min mxt (ct + 2)) ents = ents :=
      takeLast_of_le _ _ (by simp at hlen ⊢; omega)
    simp [updateTenure, updateTabuListCapacity, h, hcase, hne, htl]
  · have hct : ct = mxt := by omega
    simp [updateTenure, h, hcase]
    omega

/-- The triggering improving update: tenure lowered by 1 floored at the
minimum, counter reset, queue resized to the most recent entries. -/
theorem updateTenure_imp_trigger (st : TenureSt)
    (h : st.decreaseThreshold ≤ st.consecutiveImprovementsCounter + 1)
    (hge : st.minTenure ≤ st.currentTenure)
    (hcap : st.tabuList.cap = st.currentTenure)
    (hlen : st.tabuList.entries.length ≤ st.currentTenure) :
    (updateTenure st true).currentTenure = max st.minTenure (st.currentTenure - 1) ∧
    (updateTenure st true).noImprovementCounter = 0 ∧
    (updateTenure st true).consecutiveImprovementsCounter = 0 ∧
    (updateTenure st true).tabuList.cap = max st.minTenure (st.currentTenure - 1) ∧
    (updateTenure st true).tabuList.entries =
      takeLast (max st.minTenure (st.currentTenure - 1)) st.tabuList.entries := by
  obtain ⟨ct, mnt, mxt, it, dt, ni, ci, cap, ents⟩ := st
  simp only at h hge hcap hlen
  by_cases hcase : mnt < ct
  · have hne : ¬ (cap = max mnt (ct - 1)) := by omega
    simp [updateTenure, updateTabuListCapacity, h, hcase, hne]
  · have hct : ct = mnt := by omega
    have htl : takeLast (max mnt (ct - 1)) ents = ents :=
      takeLast_of_le _ _ (by simp at hlen ⊢; omega)
    simp [updateTenure, h, hcase, htl]
    omega

/-- Claim C7 (confirmed): starting from reset counters with the tenure in
the `[min_tenure, max_tenure]` band and the queue capacity in sync, after
`increase_threshold` consecutive non-improving iterations the tenure becomes
`min(max_tenure, tenure + 2)` with the counters reset and the tabu queue at
the new capacity keeping all its (most recently appended) entries; after
`decrease_threshold` consecutive improving iterations the tenure becomes
`max(min_tenure, tenure - 1)` with the counters reset and the queue resized
to its most recent entries. -/
theorem c7_adaptive_tenure (st : TenureSt)
    (hni : st.noImprovementCounter = 0) (hci : st.consecutiveImprovementsCounter = 0)
    (hit : 1 ≤ st.increaseThreshold) (hdt : 1 ≤ st.decreaseThreshold)
    (hle : st.currentTenure ≤ st.maxTenure) (hge : st.minTenure ≤ st.currentTenure)
    (hcap : st.tabuList.cap = st.currentTenure)
    (hlen : st.tabuList.entries.length ≤ st.currentTenure) :
    ((stepN (fun s => updateTenure s false) st.increaseThreshold st).currentTenure =
        min st.maxTenure (st.currentTenure + 2) ∧
      (stepN (fun s => updateTenure s false) st.increaseThreshold st).noImprovementCounter = 0 ∧
      (stepN (fun s => updateTenure s false) st.increaseThreshold
          st).consecutiveImprovementsCounter = 0 ∧
      (stepN (fun s => updateTenure s false) st.increaseThreshold st).tabuList.cap =
        min st.maxTenure (st.currentTenure + 2) ∧
      (stepN (fun s => updateTenure s false) st.increaseThreshold st).tabuList.entries =
        st.tabuList.entries) ∧
    ((stepN (fun s => updateTenure s true) st.decreaseThreshold st).currentTenure =
        max st.minTenure (st.currentTenure - 1) ∧
      (stepN (fun s => updateTenure s true) st.decreaseThreshold st).noImprovementCounter = 0 ∧
      (stepN (fun s => updateTenure s true) st.decreaseThreshold
          st).consecutiveImprovementsCounter = 0 ∧
      (stepN (fun s => updateTenure s true) st.decreaseThreshold st).tabuList.cap =
        max st.minTenure (st.currentTenure - 1) ∧
      (stepN (fun s => updateTenure s true) st.decreaseThreshold st).tabuList.entries =
        takeLast (max st.minTenure (st.currentTenure - 1)) st.tabuList.entries) := by
  constructor
  · obtain ⟨k, hk⟩ : ∃ k, st.increaseThreshold = k + 1 :=
      ⟨st.increaseThreshold - 1, by omega⟩
    rw [hk, stepN_succ_last]
    rw [stepN_nonimp_first_part k st hci (by omega)]
    have h2 := updateTenure_nonimp_trigger
      { st with noImprovementCounter := st.noImprovementCounter + k }
      (by simp; omega) (by simpa using hle) (by simpa using hcap) (by simpa using hlen)
    simpa using h2
  · obtain ⟨k, hk⟩ : ∃ k, st.decreaseThreshold = k + 1 :=
      ⟨st.decreaseThreshold - 1, by omega⟩
    rw [hk, stepN_succ_last]
    rw [stepN_imp_first_part k st hni (by omega)]
    have h2 := updateTenure_imp_trigger
      { st with consecutiveImprovementsCounter := st.consecutiveImprovementsCounter + k }
      (by simp; omega) (by simpa using hge) (by simpa using hcap) (by simpa using hlen)
    simpa using h2

/-- The scenario-S6 tenure state: `increase_threshold = 3`, bounds `[5, 9]`,
tenure 5, a capacity-5 queue holding one signature. -/
def s6TenureSt : TenureSt :=
  ⟨5, 5, 9, 3, 2, 0, 0, ⟨5, [[((0, 1), some 0, some 1)]]⟩⟩

/-- Claim C7 witness: the adaptive-tenure theorem at the scenario-S6 state —
three non-improving iterations give tenure `min 9 7 = 7` and queue capacity
7 with the entry retained. -/
theorem c7_adaptive_tenure_witness :
    ((stepN (fun s => updateTenure s false) s6TenureSt.increaseThreshold
        s6TenureSt).currentTenure = min s6TenureSt.maxTenure (s6TenureSt.currentTenure + 2) ∧
      (stepN (fun s => updateTenure s false) s6TenureSt.increaseThreshold
        s6TenureSt).noImprovementCounter = 0 ∧
      (stepN (fun s => updateTenure s false) s6TenureSt.increaseThreshold
        s6TenureSt).consecutiveImprovementsCounter = 0 ∧
      (stepN (fun s => updateTenure s false) s6TenureSt.increaseThreshold
        s6TenureSt).tabuList.cap = min s6TenureSt.maxTenure (s6TenureSt.currentTenure + 2) ∧
      (stepN (fun s => updateTenure s false) s6TenureSt.increaseThreshold
        s6TenureSt).tabuList.entries = s6TenureSt.tabuList.entries) ∧
    ((stepN (fun s => updateTenure s true) s6TenureSt.decreaseThreshold
        s6TenureSt).currentTenure = max s6TenureSt.minTenure (s6TenureSt.currentTenure - 1) ∧
      (stepN (fun s => updateTenure s true) s6TenureSt.decreaseThreshold
        s6TenureSt).noImprovementCounter = 0 ∧
      (stepN (fun s => updateTenure s true) s6TenureSt.decreaseThreshold
        s6TenureSt).consecutiveImprovementsCounter = 0 ∧
      (stepN (fun s => updateTenure s true) s6TenureSt.decreaseThreshold
        s6TenureSt).tabuList.cap = max s6TenureSt.minTenure (s6TenureSt.currentTenure - 1) ∧
      (stepN (fun s => updateTenure s true) s6TenureSt.decreaseThreshold
        s6TenureSt).tabuList.entries =
        takeLast (max s6TenureSt.minTenure (s6TenureSt.currentTenure - 1))
          s6TenureSt.tabuList.entries) :=
  c7_adaptive_tenure s6TenureSt (by decide) (by decide) (by decide) (by decide)
    (by decide) (by decide) (by decide) (by decide)

/-! ## Claim C5, amended theorem -/

/-- The time loop prunes iff the running partial cost strictly exceeds the
cutoff at the start of some day — i.e. after some proper prefix of days. -/
theorem timeLoop_prune_iff (m : Model) (q : ℚ) (st : EvalSt) (days : List Nat) :
    (timeLoop m (some q) st days).isLeft = true ↔
      ∃ k, k < days.length ∧ q < estCost (runFirstDays m st days k) := by
  induction days generalizing st with
  | nil => simp [timeLoop]
  | cons t rest ih =>
      by_cases h : q < estCost st
      · simp only [timeLoop, cutExceeded, decide_eq_true_eq, if_pos h, Sum.isLeft]
        constructor
        · intro _
          exact ⟨0, by simp [runFirstDays], h⟩
        · intro _
          trivial
      · simp only [timeLoop, cutExceeded, decide_eq_true_eq, if_neg h]
        rw [ih]
        constructor
        · rintro ⟨k, hk, hq⟩
          exact ⟨k + 1, by simpa using hk, by simpa [runFirstDays] using hq⟩
        · rintro ⟨k, hk, hq⟩
          cases k with
          | zero => exact absurd (by simpa [runFirstDays] using hq) h
          | succ k0 =>
              exact ⟨k0, by simpa using hk, by simpa [runFirstDays] using hq⟩

/-- A non-pruned time loop completes as the unpruned reference run. -/
theorem timeLoop_complete (m : Model) (cutoff : Option ℚ) (st : EvalSt) (days : List Nat)
    (h : (timeLoop m cutoff st days).isLeft = false) :
    timeLoop m cutoff st days = Sum.inr (runAllDays m st days) := by
  induction days generalizing st with
  | nil => rfl
  | cons t rest ih =>
      by_cases hc : cutExceeded cutoff (estCost st) = true
      · simp [timeLoop, hc] at h
      · simp only [timeLoop, hc] at h ⊢
        simp only [Bool.false_eq_true, if_neg, runAllDays]
        exact ih _ (by simpa using h)

/-- Claim C5 (corrected): after `set_pruning_best(c)` with finite `c` the
cutoff is `1.2 · c`, and the running partial cost
(`setup + late − exp_reward`) is compared against it only at the start of
each simulated day: the evaluation returns `total_cost = +∞` iff the partial
cost after some proper prefix of days exceeds `1.2 · c`; otherwise it runs
to completion and returns the finite total
`setup + late − exp_reward` of the full run. -/
theorem c5_pruning_amended (m : Model) (solIn : SolIn) (rng : Rng) (c : ℚ) :
    ((repairAndEvaluate m solIn (setPruningBest (some c)) rng).1.totalCost = none ↔
      ∃ k, k < (sortedTimes m).length ∧
        c * (6 / 5) <
          estCost (runFirstDays m (evalStart m solIn rng) (sortedTimes m) k)) ∧
    ((repairAndEvaluate m solIn (setPruningBest (some c)) rng).1.totalCost = none ∨
      (repairAndEvaluate m solIn (setPruningBest (some c)) rng).1.totalCost =
        some (estCost (runAllDays m (evalStart m solIn rng) (sortedTimes m)))) := by
  have hset : setPruningBest (some c) = some (c * (6 / 5)) := rfl
  rw [hset]
  have hiff : ((repairAndEvaluate m solIn (some (c * (6 / 5))) rng).1.totalCost = none) ↔
      (timeLoop m (some (c * (6 / 5))) (evalStart m solIn rng) (sortedTimes m)).isLeft
        = true := by
    unfold repairAndEvaluate
    cases h : timeLoop m (some (c * (6 / 5))) (evalStart m solIn rng) (sortedTimes m) <;>
      simp [finishSol]
  constructor
  · rw [hiff, timeLoop_prune_iff]
  · by_cases h : (timeLoop m (some (c * (6 / 5))) (evalStart m solIn rng)
        (sortedTimes m)).isLeft = true
    · left
      rw [hiff]
      exact h
    · right
      have hcomp := timeLoop_complete m (some (c * (6 / 5))) (evalStart m solIn rng)
        (sortedTimes m) (by simpa using h)
      unfold repairAndEvaluate
      rw [hcomp]
      simp [finishSol, estCost]

/-- Claim C5 witness: the amended pruning contract at the concrete `M5`
instance — the run is not pruned, so the returned total cost is the
reference run's partial cost. -/
theorem c5_pruning_amended_witness :
    (repairAndEvaluate M5 sol5 (setPruningBest (some 1)) []).1.totalCost = none ∨
      (repairAndEvaluate M5 sol5 (setPruningBest (some 1)) []).1.totalCost =
        some (estCost (runAllDays M5 (evalStart M5 sol5 []) (sortedTimes M5))) :=
  (c5_pruning_amended M5 sol5 [] 1).2

/-! ## Claim C8 -/

/-- The element `c` is the first maximum of `ys` under `f`: everything before
it is strictly smaller, everything after it no larger. -/
def firstMaxSplit (f : Nat → ℚ) (c : Nat) (ys : List Nat) : Prop :=
  ∃ l1 l2, ys = l1 ++ c :: l2 ∧ (∀ x ∈ l1, f x < f c) ∧ (∀ x ∈ l2, f x ≤ f c)

/-- A first maximum dominates the whole list. -/
theorem firstMaxSplit_le (f : Nat → ℚ) (c : Nat) (ys : List Nat)
    (h : firstMaxSplit f c ys) : ∀ y ∈ ys, f y ≤ f c := by
  obtain ⟨l1, l2, hsplit, h1, h2⟩ := h
  intro y hy
  rw [hsplit] at hy
  rcases List.mem_append.mp hy with hy | hy
  · exact le_of_lt (h1 y hy)
  · rcases List.mem_cons.mp hy with rfl | hy
    · exact le_refl _
    · exact h2 y hy

/-- The `max` fold started on an incumbent returns the first maximum of the
incumbent followed by the list. -/
theorem argmaxGo_spec (f : Nat → ℚ) :
    ∀ (xs : List Nat) (b : Nat),
      ∃ c, xs.foldl (argmaxStep f) (some b) = some c ∧ firstMaxSplit f c (b :: xs) := by
  intro xs
  induction xs with
  | nil =>
      intro b
      exact ⟨b, rfl, [], [], rfl, by simp, by simp⟩
  | cons x rest ih =>
      intro b
      by_cases h : f b < f x
      · obtain ⟨c, hc, hsplit⟩ := ih x
        have hxc : f x ≤ f c := firstMaxSplit_le f c (x :: rest) hsplit (x) (by simp)
        obtain ⟨l1, l2, heq, h1, h2⟩ := hsplit
        refine ⟨c, ?_, b :: l1, l2, ?_, ?_, h2⟩
        · simpa [argmaxStep, h] using hc
        · simp [heq]
        · intro y hy
          rcases List.mem_cons.mp hy with rfl | hy
          · calc f y < f x := h
              _ ≤ f c := hxc
          · exact h1 y hy
      · obtain ⟨c, hc, hsplit⟩ := ih b
        obtain ⟨l1, l2, heq, h1, h2⟩ := hsplit
        refine ⟨c, by simpa [argmaxStep, h] using hc, ?_⟩
        cases l1 with
        | nil =>
            simp only [List.nil_append] at heq
            obtain ⟨rfl, rfl⟩ : b = c ∧ rest = l2 :=
              ⟨by injection heq, by injection heq⟩
            refine ⟨[], x :: rest, by simp, by simp, ?_⟩
            intro y hy
            rcases List.mem_cons.mp hy with rfl | hy
            · exact le_of_not_lt h
            · exact h2 y hy
        | cons hd tl =>
            simp only [List.cons_append] at heq
            obtain ⟨rfl, hrest⟩ : b = hd ∧ rest = tl ++ c :: l2 :=
              ⟨by injection heq, by injection heq⟩
            have hbc : f b < f c := h1 b (by simp)
            refine ⟨b :: x :: tl, l2, by simp [hrest], ?_, h2⟩
            intro y hy
            rcases List.mem_cons.mp hy with rfl | hy
            · exact hbc
            rcases List.mem_cons.mp hy with rfl | hy
            · exact lt_of_le_of_lt (le_of_not_lt h) hbc
            · exact h1 y (by simp [hy])

/-- `argmaxFirst` of a non-empty list is its first maximum. -/
theorem argmaxFirst_spec (xs : List Nat) (f : Nat → ℚ) (hne : xs ≠ []) :
    ∃ c, argmaxFirst xs f = some c ∧ firstMaxSplit f c xs := by
  cases xs with
  | nil => exact absurd rfl hne
  | cons x rest => simpa [argmaxFirst, argmaxStep] using argmaxGo_spec f rest x

/-- Updating a dict then reading the same key. -/
theorem dget_dset_self {κ ν : Type} [DecidableEq κ] (d : List (κ × ν)) (k : κ) (v : ν) :
    dget (dset d k v) k = some v := by
  induction d with
  | nil => simp [dset, dget, List.find?]
  | cons p rest ih =>
      obtain ⟨k0, v0⟩ := p
      by_cases h : k0 = k
      · subst h
        simp [dset, dget, List.find?]
      · simp only [dset, if_neg h]
        simpa [dget, List.find?, h] using ih

/-- Updating a dict does not change other keys. -/
theorem dget_dset_ne {κ ν : Type} [DecidableEq κ] (d : List (κ × ν)) (k k1 : κ) (v : ν)
    (h : k1 ≠ k) : dget (dset d k v) k1 = dget d k1 := by
  have hk : ¬ (k = k1) := fun hc => h hc.symm
  induction d with
  | nil => simp [dset, dget, List.find?, hk]
  | cons p rest ih =>
      obtain ⟨k0, v0⟩ := p
      by_cases h0 : k0 = k
      · simp [dset, if_pos h0, dget, List.find?, hk, h0]
      · simp only [dset, if_neg h0]
        by_cases h1 : k0 = k1
        · simp [dget, List.find?, h1]
        · simpa [dget, List.find?, h1] using ih

/-- Writing a constant value over a set of days fixes the written cells. -/
theorem dget_constfold (l : Nat) (v : Option Nat) (t : Nat) :
    ∀ (ts : List Nat) (a : Assign),
      (dget a (l, t) = some v ∨ t ∈ ts) →
      dget (ts.foldl (fun b t0 => dset b (l, t0) v) a) (l, t) = some v := by
  intro ts
  induction ts with
  | nil =>
      intro a h
      rcases h with h | h
      · exact h
      · simp at h
  | cons t0 rest ih =>
      intro a h
      simp only [List.foldl_cons]
      apply ih
      by_cases he : t = t0
      · subst he
        exact Or.inl (dget_dset_self a (l, t) v)
      · rcases h with h | h
        · refine Or.inl ?_
          rw [dget_dset_ne a (l, t0) (l, t) v (by simp [he])]
          exact h
        · rcases List.mem_cons.mp h with h | h
          · exact absurd h he
          · exact Or.inr h

/-- Writing another line's cells does not change this line's. -/
theorem dget_constfold_ne (l0 l t : Nat) (v : Option Nat) (hne : l0 ≠ l) :
    ∀ (ts : List Nat) (a : Assign),
      dget (ts.foldl (fun b t0 => dset b (l0, t0) v) a) (l, t) = dget a (l, t) := by
  intro ts
  induction ts with
  | nil => intro a; rfl
  | cons t0 rest ih =>
      intro a
      simp only [List.foldl_cons]
      rw [ih, dget_dset_ne a (l0, t0) (l, t) v
        (by intro hc; exact hne (congrArg Prod.fst hc).symm)]

/-- Another line's initialisation step does not change this line's cells. -/
theorem initialAssignStep_other (m : Model) (l t l0 : Nat) (acc : Assign × Rng)
    (hne : l0 ≠ l) :
    dget (initialAssignStep m acc l0).1 (l, t) = dget acc.1 (l, t) := by
  unfold initialAssignStep
  exact dget_constfold_ne l0 l t _ hne m.setT acc.1

/-- A run of initialisation steps over other lines does not change this
line's cells. -/
theorem initialAssignment_other (m : Model) (l t : Nat) :
    ∀ (L : List Nat) (acc : Assign × Rng), l ∉ L →
      dget (L.foldl (initialAssignStep m) acc).1 (l, t) = dget acc.1 (l, t) := by
  intro L
  induction L with
  | nil => intro acc _; rfl
  | cons l0 rest ih =>
      intro acc h
      simp only [List.foldl_cons]
      rw [ih _ (fun hc => h (by simp [hc]))]
      exact initialAssignStep_other m l t l0 acc (fun hc => h (by simp [hc]))

/-- With a non-empty allowed list the pick is the demand argmax and consumes
no rng. -/
theorem initialStylePick_of_ne (m : Model) (l : Nat) (r : Rng) (hal : m.allowed l ≠ []) :
    initialStylePick m l r = (argmaxFirst (m.allowed l) (totalDemand m), r) := by
  unfold initialStylePick
  cases hA : m.allowed l with
  | nil => exact absurd hA hal
  | cons x xs => simp

/-- Claim C8 (corrected): `initialize_solution` assigns, to every day of
every line, the FIRST style of maximal total demand in the line's allowed
list — the tie-break is the allowed list's (capability set's) iteration
order, not the style id — and then runs `repair_and_evaluate` on the built
assignment. -/
theorem c8_initial_solution (m : Model) (rng : Rng) (l t : Nat)
    (hl : l ∈ m.lines) (ht : t ∈ m.setT) (hal : m.allowed l ≠ [])
    (hnd : m.lines.Nodup) :
    dget (initialAssignment m rng).1 (l, t) =
      some (argmaxFirst (m.allowed l) (totalDemand m)) ∧
    firstMaxSplit (totalDemand m)
      ((argmaxFirst (m.allowed l) (totalDemand m)).getD 0) (m.allowed l) ∧
    initializeSolution m rng =
      repairAndEvaluate m ⟨(initialAssignment m rng).1, none⟩ none
        (initialAssignment m rng).2 := by
  obtain ⟨c, hc, hsplit⟩ := argmaxFirst_spec (m.allowed l) (totalDemand m) hal
  refine ⟨?_, ?_, rfl⟩
  · obtain ⟨L1, L2, hL⟩ := List.append_of_mem hl
    have hl2 : l ∉ L2 := by
      rw [hL] at hnd
      have h2 := hnd.of_append_right
      exact (List.nodup_cons.mp h2).1
    unfold initialAssignment
    rw [hL, List.foldl_append, List.foldl_cons]
    rw [initialAssignment_other m l t L2 _ hl2]
    unfold initialAssignStep
    rw [initialStylePick_of_ne m l _ hal]
    simp only
    rw [hc]
    exact dget_constfold l (some c) t m.setT _ (Or.inr ht)
  · rw [hc]
    simpa using hsplit

/-- The tie-break instance: one line whose allowed list (the capability
set's iteration order) is `[1, 0]`, both styles with total demand 7. -/
def M8 : Model :=
  { styles := [0, 1], lines := [0], setT := [1]
    allowed := fun _ => [1, 0]
    samv := fun _ => 1
    lineCapacity := fun _ => [0]
    paramH := fun _ _ => 0
    csetup := 0, rexp := 0
    lexp := fun _ _ => 0
    plate := fun _ => 0
    tfab := fun _ => 0, tprod := fun _ => 0
    paramF := fun _ _ => 0
    paramD := fun _ _ => 7
    ssame := []
    i0fab := fun _ => 0, i0prod := fun _ => 0, b0 := fun _ => 0
    curve := [(0, 1)]
    paramY0 := fun _ _ => 0
    hasY0 := false
    alpha := 0
    exp0 := fun _ => 0
    idToStyle := fun _ => ("A")
    styleToId := fun _ => none }

/-- Modelled from the spec (section 4.3, `initial_solution`): "pick the style
in allowed(l) with the largest total demand across the horizon; break ties by
style id" — the first maximal-demand style of the id-SORTED allowed list,
i.e. the smallest-id style among the maximal ones. -/
def initialStyleBySpec (m : Model) (l : Nat) : Option Nat :=
  argmaxFirst ((m.allowed l).mergeSort (fun a b => a ≤ b)) (totalDemand m)

/-- Claim C8, counterexample: with equal demands and allowed order `[1, 0]`,
`initialize_solution` assigns style 1 (the first in the capability set's
iteration order), while the spec's id tie-break demands style 0. -/
theorem c8_tiebreak_counterexample :
    totalDemand M8 0 = totalDemand M8 1 ∧
    dget (initialAssignment M8 []).1 (0, 1) = some (some 1) ∧
    initialStyleBySpec M8 0 = some 0 ∧
    (some (1 : Nat) : Option Nat) ≠ some 0 := by
  refine ⟨?_, ?_, ?_, ?_⟩ <;>
  norm_num [totalDemand, initialAssignment, initialAssignStep, initialStylePick,
    argmaxFirst, argmaxStep, initialStyleBySpec, dget, dset, List.find?,
    List.mergeSort, randomAllowedStyleId, M8]

/-- Claim C8 witness: the amended initialisation rule at the concrete
tie-break instance. -/
theorem c8_initial_solution_witness :
    dget (initialAssignment M8 []).1 (0, 1) =
      some (argmaxFirst (M8.allowed 0) (totalDemand M8)) ∧
    firstMaxSplit (totalDemand M8)
      ((argmaxFirst (M8.allowed 0) (totalDemand M8)).getD 0) (M8.allowed 0) ∧
    initializeSolution M8 [] =
      repairAndEvaluate M8 ⟨(initialAssignment M8 []).1, none⟩ none
        (initialAssignment M8 []).2 :=
  c8_initial_solution M8 [] 0 1 (by decide) (by decide) (by decide) (by decide)

/-! ## Claim C9 -/

/-- A tag the generator can emit: either no tag at all or the blanket
`'mo_move'` tag. -/
def tagOk (s : Sol) : Bool :=
  match s.type with
  | none => true
  | some str => str == ("mo_move")

/-- The evaluator carries the input's `"type"` value through unchanged. -/
theorem repairAndEvaluate_type (m : Model) (s : SolIn) (c : Option ℚ) (r : Rng) :
    (repairAndEvaluate m s c r).1.type = s.type := by
  unfold repairAndEvaluate
  cases h : timeLoop m c (evalStart m s r) (sortedTimes m) <;> simp [finishSol]

/-- Every solution a traditional move emits has no tag: the move dict passed
to the evaluator has no `"type"` key. -/
theorem traditionalMove_type (m : Model) (c : Option ℚ) (a : Assign) (r : Rng) (sol : Sol)
    (h : (traditionalMove m c a r).1 = some sol) : sol.type = none := by
  unfold traditionalMove at h
  simp only [] at h
  repeat' split at h
  all_goals simp at h
  all_goals (subst h; simp [repairAndEvaluate_type])

/-- The traditional loop only accumulates untagged solutions. -/
theorem genTraditionalAux_type (m : Model) (c : Option ℚ) (a : Assign) :
    ∀ (fuel : Nat) (acc : List Sol) (r : Rng),
      (∀ s ∈ acc, s.type = none) →
      ∀ s ∈ (genTraditionalAux m c a fuel acc r).1, s.type = none := by
  intro fuel
  induction fuel with
  | zero =>
      intro acc r hacc
      simpa [genTraditionalAux] using hacc
  | succ n ih =>
      intro acc r hacc
      simp only [genTraditionalAux]
      cases hm : (traditionalMove m c a r).1 with
      | some sol =>
          apply ih
          intro s hs
          rcases List.mem_append.mp hs with hs | hs
          · exact hacc s hs
          · rw [List.mem_singleton.mp hs]
            exact traditionalMove_type m c a r sol hm
      | none => exact ih acc _ hacc

/-- `_generate_traditional_neighbors` emits only untagged solutions. -/
theorem genTraditional_type (m : Model) (c : Option ℚ) (a : Assign) (r : Rng) :
    ∀ s ∈ (genTraditional m c a r).1, s.type = none := by
  exact genTraditionalAux_type m c a _ [] r (by simp)

/-- `_generate_multi_objective_neighbors` tags every emitted solution with
the one blanket `'mo_move'` tag. -/
theorem genMultiObjective_type (m : Model) (c : Option ℚ) (base : Sol) (r : Rng) :
    ∀ s ∈ (genMultiObjective m c base r).1, s.type = some ("mo_move") := by
  intro s hs
  unfold genMultiObjective at hs
  simp only [List.mem_map] at hs
  obtain ⟨x, _, rfl⟩ := hs
  rfl

/-- Claim C9 (corrected): no destroy-and-repair operators exist — every
generated solution carries either no tag at all (the traditional moves) or
the single blanket `'mo_move'` tag (the multi-objective batch as a whole);
no tag identifies an individual operator. -/
theorem c9_move_tags (m : Model) (cutoff : Option ℚ) (base : Sol) (p : ℚ) (rng : Rng) :
    ((generateNeighbors m cutoff base p rng).1.all tagOk) = true ∧
    ((genTraditional m cutoff base.assignment rng).1.all (fun s => s.type.isNone)) = true ∧
    ((genMultiObjective m cutoff base rng).1.all
      (fun s => s.type == some ("mo_move"))) = true := by
  refine ⟨?_, ?_, ?_⟩
  · rw [List.all_eq_true]
    intro s hs
    unfold generateNeighbors at hs
    simp only [] at hs
    split at hs
    · rcases List.mem_append.mp hs with hs | hs
      · have hn := genTraditional_type m cutoff base.assignment rng s hs
        simp [tagOk, hn]
      · have hn := genMultiObjective_type m cutoff base _ s hs
        simp [tagOk, hn]
    · have hn := genTraditional_type m cutoff base.assignment rng s hs
      simp [tagOk, hn]
  · rw [List.all_eq_true]
    intro s hs
    simp [genTraditional_type m cutoff base.assignment rng s hs]
  · rw [List.all_eq_true]
    intro s hs
    simp [genMultiObjective_type m cutoff base rng s hs]

/-- Solutions already accumulated stay in the traditional batch. -/
theorem genTraditionalAux_acc_mono (m : Model) (c : Option ℚ) (a : Assign) :
    ∀ (fuel : Nat) (acc : List Sol) (r : Rng) (s : Sol), s ∈ acc →
      s ∈ (genTraditionalAux m c a fuel acc r).1 := by
  intro fuel
  induction fuel with
  | zero => intro acc r s hs; simpa [genTraditionalAux] using hs
  | succ n ih =>
      intro acc r s hs
      simp only [genTraditionalAux]
      cases hm : (traditionalMove m c a r).1 with
      | some sol => exact ih _ _ s (by simp [hs])
      | none => exact ih _ _ s hs

/-- A move emitted on the first loop iteration is in the batch. -/
theorem genTraditionalAux_first_emit (m : Model) (c : Option ℚ) (a : Assign)
    (r : Rng) (sol : Sol) (fuel : Nat) (hf : 1 ≤ fuel)
    (hm : (traditionalMove m c a r).1 = some sol) :
    sol ∈ (genTraditionalAux m c a fuel [] r).1 := by
  cases fuel with
  | zero => omega
  | succ n =>
      simp only [genTraditionalAux, hm]
      exact genTraditionalAux_acc_mono m c a n [sol] _ sol (by simp)

/-- The traditional batch is contained in the generator's output for every
`mo_probability`. -/
theorem generateNeighbors_mem_traditional (m : Model) (cutoff : Option ℚ) (base : Sol)
    (p : ℚ) (rng : Rng) (s : Sol)
    (hs : s ∈ (genTraditional m cutoff base.assignment rng).1) :
    s ∈ (generateNeighbors m cutoff base p rng).1 := by
  unfold generateNeighbors
  simp only []
  split
  · exact List.mem_append_left _ hs
  · exact hs

/-- The C9 instance: one line, two days, two allowed styles with plenty of
fabric; the base assigns different styles to the two days, so the first
(all-zero-rng) traditional move is a swap and is emitted. -/
def M9 : Model :=
  { styles := [0, 1], lines := [0], setT := [1, 2]
    allowed := fun _ => [0, 1]
    samv := fun _ => 1
    lineCapacity := fun _ => [0, 0]
    paramH := fun _ _ => 0
    csetup := 0, rexp := 0
    lexp := fun _ _ => 0
    plate := fun _ => 0
    tfab := fun _ => 0, tprod := fun _ => 0
    paramF := fun _ _ => 0
    paramD := fun _ _ => 0
    ssame := []
    i0fab := fun _ => 1000, i0prod := fun _ => 0, b0 := fun _ => 0
    curve := [(0, 1)]
    paramY0 := fun _ _ => 0
    hasY0 := false
    alpha := 0
    exp0 := fun _ => 0
    idToStyle := fun _ => ("A")
    styleToId := fun _ => none }

/-- The C9 base solution (a fully populated evaluated dict). -/
def baseSol9 : Sol :=
  { assignment := [((0, 1), some 0), ((0, 2), some 1)]
    production := [], shipment := [], changes := [], experience := [], efficiency := []
    finalBacklog := some [], totalSetup := some 0, totalLate := some 0, totalExp := some 0
    totalCost := some 0, type := none }

/-- Claim C9, counterexample: the generator emits a solution carrying no
`move_type` tag at all — the claim that every emitted Solution carries an
operator-identifying tag is false (traditional moves are emitted untagged). -/
theorem c9_counterexample :
    ((generateNeighbors M9 none baseSol9 0 []).1.all (fun s => s.type.isSome)) = false := by
  have h1 : ((traditionalMove M9 none baseSol9.assignment []).1).isSome = true := by
    norm_num [traditionalMove, rngChoice, rngNext, rngSample, rngShuffle, rngShuffleAux,
      pickNth, sortedTimes, alookup, dget, List.mergeSort, M9, baseSol9,
      show ((("swap" : String) == ("swap")) = true) from by decide]
  obtain ⟨sol, hsol⟩ := Option.isSome_iff_exists.mp h1
  have h2 : sol.type = none := traditionalMove_type M9 none baseSol9.assignment [] sol hsol
  have h3 : sol ∈ (generateNeighbors M9 none baseSol9 0 []).1 :=
    generateNeighbors_mem_traditional M9 none baseSol9 0 [] sol
      (genTraditionalAux_first_emit M9 none baseSol9.assignment [] sol
        (max (M9.lines.length * 2) 10) (by norm_num [M9]) hsol)
  by_contra hall
  have hallT : ((generateNeighbors M9 none baseSol9 0 []).1.all
      (fun s => s.type.isSome)) = true := by
    cases hb : ((generateNeighbors M9 none baseSol9 0 []).1.all (fun s => s.type.isSome))
    · exact absurd hb hall
    · rfl
  rw [List.all_eq_true] at hallT
  have h4 := hallT sol h3
  simp [h2] at h4

/-! ## Claim C3, amended general theorem: supporting lemmas -/

theorem foldl_proj_eq {α σ β : Type} (f : σ → α → σ) (g : σ → β)
    (hf : ∀ s a, g (f s a) = g s) :
    ∀ (xs : List α) (s : σ), g (xs.foldl f s) = g s := by
  intro xs
  induction xs with
  | nil => intro s; rfl
  | cons x rest ih =>
      intro s
      simp only [List.foldl_cons]
      rw [ih, hf]

theorem alookup_dset_ne (a : Assign) (k k1 : Nat × Nat) (v : Option Nat) (h : k1 ≠ k) :
    alookup (dset a k v) k1 = alookup a k1 := by
  unfold alookup
  rw [dget_dset_ne a k k1 v h]

theorem receiptsPhase_assign (m : Model) (t : Nat) (st : EvalSt) :
    (receiptsPhase m t st).assign = st.assign := by
  unfold receiptsPhase
  apply foldl_proj_eq
  intro s0 a0
  rfl

theorem receiptsPhase_lineSt (m : Model) (t : Nat) (st : EvalSt) :
    (receiptsPhase m t st).lineSt = st.lineSt := by
  unfold receiptsPhase
  apply foldl_proj_eq
  intro s0 a0
  rfl

theorem receiptsPhase_production (m : Model) (t : Nat) (st : EvalSt) :
    (receiptsPhase m t st).production = st.production := by
  unfold receiptsPhase
  apply foldl_proj_eq
  intro s0 a0
  rfl

theorem receiptsPhase_changes (m : Model) (t : Nat) (st : EvalSt) :
    (receiptsPhase m t st).changes = st.changes := by
  unfold receiptsPhase
  apply foldl_proj_eq
  intro s0 a0
  rfl

theorem shipStyle_assign (m : Model) (t : Nat) (d : ℚ) (acc : EvalSt) (s : Nat) :
    (shipStyle m t d acc s).assign = acc.assign := by
  unfold shipStyle
  simp only []
  split <;> rfl

theorem shipStyle_lineSt (m : Model) (t : Nat) (d : ℚ) (acc : EvalSt) (s : Nat) :
    (shipStyle m t d acc s).lineSt = acc.lineSt := by
  unfold shipStyle
  simp only []
  split <;> rfl

theorem shipStyle_production (m : Model) (t : Nat) (d : ℚ) (acc : EvalSt) (s : Nat) :
    (shipStyle m t d acc s).production = acc.production := by
  unfold shipStyle
  simp only []
  split <;> rfl

theorem shipStyle_changes (m : Model) (t : Nat) (d : ℚ) (acc : EvalSt) (s : Nat) :
    (shipStyle m t d acc s).changes = acc.changes := by
  unfold shipStyle
  simp only []
  split <;> rfl

theorem processLine_invFab (m : Model) (t : Nat) (nt : Option Nat) (d : ℚ)
    (acc : EvalSt × (Nat → List (Nat × ℚ))) (l : Nat) :
    (processLine m t nt d acc l).1.invFab = acc.1.invFab := by
  unfold processLine
  simp only []
  split <;> rfl

theorem processLine_production (m : Model) (t : Nat) (nt : Option Nat) (d : ℚ)
    (acc : EvalSt × (Nat → List (Nat × ℚ))) (l : Nat) :
    (processLine m t nt d acc l).1.production = acc.1.production := by
  unfold processLine
  simp only []
  split <;> rfl

theorem smartStyle_assign_other (m : Model) (t : Nat) (nt : Option Nat) (l s0 : Nat)
    (cur : Option Nat) (inv : Nat → ℚ) (a : Assign) (rng : Rng) (k : Nat × Nat)
    (hk : k ≠ (l, t)) :
    alookup (smartStyle m t nt l s0 cur inv a rng).2.1 k = alookup a k := by
  unfold smartStyle
  repeat'
    first
      | rfl
      | exact alookup_dset_ne a (l, t) k _ hk
      | split
      | dsimp only

theorem smartStyle_bridge (m : Model) (t t0 : Nat) (l s : Nat) (inv : Nat → ℚ)
    (a : Assign) (rng : Rng) (hinv : inv s ≤ eps) (hnext : alookup a (l, t0) = some s) :
    smartStyle m t (some t0) l s (some s) inv a rng = (s, a, rng) := by
  unfold smartStyle
  simp [hinv, hnext]

theorem interpSeg_nonneg (curve : List (ℚ × ℚ)) (x y : ℚ)
    (hc : ∀ p ∈ curve, 0 ≤ p.2) (h : interpSeg curve x = some y) : 0 ≤ y := by
  induction curve with
  | nil => simp [interpSeg] at h
  | cons p1 rest ih =>
      cases rest with
      | nil => simp [interpSeg] at h
      | cons p2 rest2 =>
          by_cases hseg : p1.1 ≤ x ∧ x ≤ p2.1
          · rw [interpSeg, if_pos hseg] at h
            obtain ⟨hy⟩ := h
            have hy1 : 0 ≤ p1.2 := hc p1 (by simp)
            have hy2 : 0 ≤ p2.2 := hc p2 (by simp)
            rcases lt_or_le p1.1 p2.1 with hlt | hle
            · have hden : (0 : ℚ) < p2.1 - p1.1 := by linarith
              have hl0 : 0 ≤ (x - p1.1) / (p2.1 - p1.1) := by
                apply div_nonneg  <;> linarith
              have hl1 : (x - p1.1) / (p2.1 - p1.1) ≤ 1 := by
                rw [div_le_one hden]
                linarith
              have hrw : p1.2 + (p2.2 - p1.2) * (x - p1.1) / (p2.1 - p1.1) =
                  p1.2 * (1 - (x - p1.1) / (p2.1 - p1.1)) +
                    p2.2 * ((x - p1.1) / (p2.1 - p1.1)) := by
                field_simp
                ring
              rw [hrw]
              have := mul_nonneg hy1 (by linarith : (0:ℚ) ≤ 1 - (x - p1.1) / (p2.1 - p1.1))
              have := mul_nonneg hy2 hl0
              linarith
            · have hxx : x = p1.1 := le_antisymm (le_trans hseg.2 hle) hseg.1
              rw [hxx] at *
              simp at *
              rcases eq_or_lt_of_le hle with heq | hlt2
              · rw [← heq] at *
                simp [sub_self] at *
                linarith [hy1]
              · linarith [hy1, mul_nonneg (sub_nonneg.mpr (le_of_lt hlt2)) hy1]
          · rw [interpSeg, if_neg hseg] at h
            exact ih (fun p hp => hc p (by simp at hp ⊢; tauto)) h

theorem lastD_mem (xs : List (ℚ × ℚ)) (hne : xs ≠ []) : lastD xs ∈ xs := by
  unfold lastD
  cases xs with
  | nil => exact absurd rfl hne
  | cons x rest =>
      rw [List.getLastD_eq_getLast?]
      rw [List.getLast?_eq_getLast (x :: rest) (by simp)]
      simp [List.getLast_mem]

theorem calcEff_nonneg (curve : List (ℚ × ℚ)) (x : ℚ) (hc : ∀ p ∈ curve, 0 ≤ p.2) :
    0 ≤ calcEff curve x := by
  cases curve with
  | nil => simp [calcEff]
  | cons c0 rest =>
      have hlast : 0 ≤ (lastD (c0 :: rest)).2 := hc _ (lastD_mem _ (by simp))
      simp only [calcEff]
      repeat'
        first
          | exact hc c0 (by simp)
          | exact hlast
          | exact interpSeg_nonneg (c0 :: rest) x _ hc (by assumption)
          | split

theorem getEfficiency_nonneg (m : Model) (e : ℚ) (hc : ∀ p ∈ m.curve, 0 ≤ p.2) :
    0 ≤ getEfficiency m e := by
  unfold getEfficiency
  simp only []
  split
  · exact calcEff_nonneg m.curve 20 hc
  · split
    · exact calcEff_nonneg m.curve 0 hc
    · exact calcEff_nonneg m.curve _ hc

theorem getD_nonneg (xs : List ℚ) (i : Nat) (h : ∀ q ∈ xs, 0 ≤ q) : 0 ≤ xs.getD i 0 := by
  rw [List.getD_eq_getElem?_getD]
  cases hx : xs[i]? with
  | none => simp
  | some q =>
      have := List.getElem?_mem hx
      simp [h q this]

theorem changesAt_dset_other (cs : List ((Nat × Option Nat × Nat × Nat) × ℚ))
    (l t1 : Nat) (k : Nat × Option Nat × Nat × Nat) (v : ℚ) (hk : k.1 ≠ l) :
    changesAt (dset cs k v) l t1 = changesAt cs l t1 := by
  induction cs with
  | nil => simp [dset, changesAt, List.filter, hk]
  | cons e rest ih =>
      obtain ⟨k0, v0⟩ := e
      by_cases h : k0 = k
      · subst h
        simp [dset, changesAt, List.filter, hk]
      · simp only [dset, if_neg h]
        simp only [changesAt, List.filter] at ih ⊢
        cases hp : (decide (k0.1 = l ∧ k0.2.2.2 = t1)) <;>
          simp [hp, List.filter] at ih ⊢ <;> exact ih

theorem processLine_other (m : Model) (t : Nat) (nt : Option Nat) (d : ℚ)
    (acc : EvalSt × (Nat → List (Nat × ℚ))) (l0 l : Nat) (hne : l0 ≠ l) :
    (∀ x, alookup (processLine m t nt d acc l0).1.assign (l, x) =
        alookup acc.1.assign (l, x)) ∧
    (processLine m t nt d acc l0).1.lineSt l = acc.1.lineSt l ∧
    (∀ t1, changesAt (processLine m t nt d acc l0).1.changes l t1 =
        changesAt acc.1.changes l t1) := by
  have hkey : ∀ x : Nat, ((l : Nat), (x : Nat)) ≠ (l0, t) := by
    intro x hc
    exact hne (congrArg Prod.fst hc).symm
  unfold processLine
  simp only []
  split
  · refine ⟨fun x => rfl, ?_, fun t1 => rfl⟩
    simp [updF, Ne.symm hne]
  · refine ⟨?_, ?_, ?_⟩
    · intro x
      exact smartStyle_assign_other m t nt l0 _ _ _ _ _ (l, x) (hkey x)
    · simp [updF, Ne.symm hne]
    · intro t1
      dsimp only
      split
      · apply changesAt_dset_other
        exact hne
      · rfl

theorem pot_mem_cases (pot : Nat → List (Nat × ℚ)) (c : Bool) (sN l0 : Nat) (mp : ℚ)
    (s2 : Nat) (e : Nat × ℚ)
    (he : e ∈ (if c = true then
        (fun s => if s = sN then pot s ++ [(l0, mp)] else pot s) else pot) s2) :
    e ∈ pot s2 ∨ (c = true ∧ e = (l0, mp)) := by
  by_cases hc : c = true
  · rw [if_pos hc] at he
    by_cases hs : s2 = sN
    · rw [if_pos hs] at he
      rcases List.mem_append.mp he with h | h
      · exact Or.inl h
      · exact Or.inr ⟨hc, List.mem_singleton.mp h⟩
    · rw [if_neg hs] at he
      exact Or.inl he
  · rw [if_neg hc] at he
    exact Or.inl he

theorem processLine_pot_nonneg (m : Model) (t : Nat) (nt : Option Nat) (d : ℚ)
    (acc : EvalSt × (Nat → List (Nat × ℚ))) (l0 : Nat)
    (hpot : ∀ s2 e, e ∈ acc.2 s2 → 0 ≤ e.2)
    (hcap : ∀ q ∈ m.lineCapacity l0, 0 ≤ q)
    (hcurve : ∀ p ∈ m.curve, 0 ≤ p.2) :
    ∀ s2 e, e ∈ (processLine m t nt d acc l0).2 s2 → 0 ≤ e.2 := by
  have hmax : ∀ (ex : ℚ) (sN : Nat), 0 < m.samv sN →
      0 ≤ (m.lineCapacity l0).getD (t-1) 0 * getEfficiency m ex / m.samv sN := by
    intro ex sN hsam
    apply div_nonneg
    · exact mul_nonneg (getD_nonneg _ _ hcap) (getEfficiency_nonneg m _ hcurve)
    · exact le_of_lt hsam
  intro s2 e he
  unfold processLine at he
  simp only [] at he
  split at he
  · exact hpot s2 e he
  · rcases pot_mem_cases _ _ _ _ _ _ _ he with h | ⟨hc, h⟩
    · exact hpot s2 e h
    · simp only [Bool.and_eq_true, decide_eq_true_eq] at hc
      rw [h]
      exact hmax _ _ hc.2

theorem eps_pos : (0 : ℚ) < eps := by norm_num [eps]

theorem processLine_bridge (m : Model) (t t1 : Nat) (d : ℚ)
    (p : EvalSt × (Nat → List (Nat × ℚ))) (l s : Nat)
    (hat : alookup p.1.assign (l, t) = some s)
    (hnext : alookup p.1.assign (l, t1) = some s)
    (hcur : (p.1.lineSt l).currentStyle = some s)
    (hinv : p.1.invFab s ≤ eps) :
    (processLine m t (some t1) d p l).1.assign = p.1.assign ∧
    ((processLine m t (some t1) d p l).1.lineSt l).currentStyle = some s ∧
    (processLine m t (some t1) d p l).1.changes = p.1.changes ∧
    (processLine m t (some t1) d p l).1.setupCost = p.1.setupCost := by
  unfold processLine
  simp only []
  rw [hat, hcur]
  simp only []
  rw [smartStyle_bridge m t t1 l s _ _ _ hinv hnext]
  simp [updF]

theorem realiseStyle_assign (t : Nat) (pot : Nat → List (Nat × ℚ)) (acc : EvalSt) (s : Nat) :
    (realiseStyle t pot acc s).assign = acc.assign := by
  unfold realiseStyle
  simp only []
  split
  · rfl
  · split
    · refine (foldl_proj_eq _ EvalSt.assign ?_ _ _).trans rfl
      intro b i
      dsimp only
      split <;> rfl
    · rfl

theorem realiseStyle_changes (t : Nat) (pot : Nat → List (Nat × ℚ)) (acc : EvalSt) (s : Nat) :
    (realiseStyle t pot acc s).changes = acc.changes := by
  unfold realiseStyle
  simp only []
  split
  · rfl
  · split
    · refine (foldl_proj_eq _ EvalSt.changes ?_ _ _).trans rfl
      intro b i
      dsimp only
      split <;> rfl
    · rfl

theorem realiseStyle_setup (t : Nat) (pot : Nat → List (Nat × ℚ)) (acc : EvalSt) (s : Nat) :
    (realiseStyle t pot acc s).setupCost = acc.setupCost := by
  unfold realiseStyle
  simp only []
  split
  · rfl
  · split
    · refine (foldl_proj_eq _ EvalSt.setupCost ?_ _ _).trans rfl
      intro b i
      dsimp only
      split <;> rfl
    · rfl

theorem realiseStyle_cur (t : Nat) (pot : Nat → List (Nat × ℚ)) (acc : EvalSt) (s l1 : Nat) :
    ((realiseStyle t pot acc s).lineSt l1).currentStyle = (acc.lineSt l1).currentStyle := by
  unfold realiseStyle
  simp only []
  split
  · rfl
  · split
    · refine (foldl_proj_eq _ (fun (b : EvalSt) => (b.lineSt l1).currentStyle) ?_ _ _).trans rfl
      intro b i
      dsimp only
      split
      · by_cases h : l1 = i.1 <;> simp [updF, h]
      · rfl
    · rfl

theorem realiseStyle_invFab_other (t : Nat) (pot : Nat → List (Nat × ℚ)) (acc : EvalSt)
    (s2 s : Nat) (h : s2 ≠ s) :
    (realiseStyle t pot acc s2).invFab s = acc.invFab s := by
  unfold realiseStyle
  simp only []
  split
  · rfl
  · split
    · refine (foldl_proj_eq _ (fun (b : EvalSt) => b.invFab s) ?_ _ _).trans ?_
      · intro b i
        dsimp only
        split <;> rfl
      · simp [updF, Ne.symm h]
    · simp [updF, Ne.symm h]

theorem realiseStyle_prod_other (t : Nat) (pot : Nat → List (Nat × ℚ)) (acc : EvalSt)
    (s2 l s t0 : Nat) (h : s2 ≠ s) :
    dget (realiseStyle t pot acc s2).production (l, s, t0) =
      dget acc.production (l, s, t0) := by
  have hkey : ∀ i : Nat × ℚ, ((l : Nat), (s : Nat), (t0 : Nat)) ≠ (i.1, s2, t) := by
    intro i hc
    exact h ((congrArg (fun q => q.2.1) hc)).symm
  unfold realiseStyle
  simp only []
  split
  · rfl
  · split
    · refine (foldl_proj_eq _ (fun (b : EvalSt) => dget b.production (l, s, t0)) ?_ _ _).trans rfl
      intro b i
      dsimp only
      split
      · exact dget_dset_ne _ _ _ _ (hkey i)
      · exact dget_dset_ne _ _ _ _ (hkey i)
    · rfl

theorem share_le_eps (a mp tc : ℚ) (ha : a ≤ eps) (hmp0 : 0 ≤ mp) (hmptc : mp ≤ tc)
    (htc : 0 < tc) : a * mp / tc ≤ eps := by
  rcases le_or_lt a 0 with h | h
  · have h0 : a * mp / tc ≤ 0 :=
      div_nonpos_of_nonpos_of_nonneg (mul_nonpos_iff.mpr (Or.inr ⟨h, hmp0⟩)) htc.le
    exact h0.trans eps_pos.le
  · have h1 : a * mp ≤ a * tc := mul_le_mul_of_nonneg_left hmptc h.le
    have h2 : a * mp / tc ≤ a := by
      rw [div_le_iff₀ htc]
      exact h1
    exact h2.trans ha

theorem realiseStyle_self_bound (t : Nat) (pot : Nat → List (Nat × ℚ)) (acc : EvalSt)
    (s l : Nat) (hinv : acc.invFab s ≤ eps) (hpot : ∀ e ∈ pot s, 0 ≤ e.2)
    (hfresh : (dget acc.production (l, s, t)).getD 0 ≤ eps) :
    (dget (realiseStyle t pot acc s).production (l, s, t)).getD 0 ≤ eps := by
  unfold realiseStyle
  simp only []
  split
  · exact hfresh
  · split
    · rename_i hne htc
      have hsum : ∀ i ∈ pot s, i.2 ≤ (List.map (fun i => i.2) (pot s)).sum := by
        intro i hi
        exact List.single_le_sum (by intro q hq; rcases List.mem_map.mp hq with ⟨e, he, heq⟩; rw [← heq]; exact hpot e he) _ (List.mem_map_of_mem _ hi)
      have hact : (List.map (fun i => i.2) (pot s)).sum ⊓ acc.invFab s ≤ eps :=
        le_trans inf_le_right hinv
      have hgen : ∀ (its : List (Nat × ℚ)) (b : EvalSt),
          (∀ i ∈ its, i ∈ pot s) →
          (dget b.production (l, s, t)).getD 0 ≤ eps →
          (dget (its.foldl
            (fun b i =>
              let share := ((List.map (fun i => i.2) (pot s)).sum ⊓ acc.invFab s) * i.2 /
                (List.map (fun i => i.2) (pot s)).sum
              let b1 := { b with production := dset b.production (i.1, s, t) share }
              if (1 / 2 : ℚ) * i.2 ≤ share then
                { b1 with
                    lineSt := updF b1.lineSt i.1
                      ⟨(b1.lineSt i.1).currentStyle, (b1.lineSt i.1).exp, 1⟩ }
              else b1) b).production (l, s, t)).getD 0 ≤ eps := by
        intro its
        induction its with
        | nil => intro b _ hb; exact hb
        | cons i rest ih =>
            intro b hmem hb
            simp only [List.foldl_cons]
            apply ih
            · intro j hj
              exact hmem j (List.mem_cons_of_mem _ hj)
            · have hstep : ∀ b1 : EvalSt,
                  (dget b1.production (l, s, t)).getD 0 ≤ eps →
                  (dget (dset b1.production (i.1, s, t)
                    (((List.map (fun i => i.2) (pot s)).sum ⊓ acc.invFab s) * i.2 /
                      (List.map (fun i => i.2) (pot s)).sum)) (l, s, t)).getD 0 ≤ eps := by
                intro b1 hb1
                by_cases hl : (l : Nat) = i.1
                · subst hl
                  rw [dget_dset_self]
                  simp only [Option.getD_some]
                  exact share_le_eps _ _ _ hact
                    (hpot i (hmem i (List.mem_cons_self _ _)))
                    (hsum i (hmem i (List.mem_cons_self _ _))) htc
                · rw [dget_dset_ne]
                  · exact hb1
                  · intro hc
                    exact hl (congrArg (fun q => q.1) hc)
              split
              · exact hstep b hb
              · exact hstep b hb
      exact hgen _ _ (fun i hi => hi) hfresh
    · exact hfresh

theorem fold_styles_bound (t : Nat) (pot : Nat → List (Nat × ℚ)) (l s : Nat)
    (hpot : ∀ e ∈ pot s, 0 ≤ e.2) :
    ∀ (sty : List Nat) (b : EvalSt), sty.Nodup →
    (s ∈ sty → b.invFab s ≤ eps) →
    (dget b.production (l, s, t)).getD 0 ≤ eps →
    (dget (sty.foldl (realiseStyle t pot) b).production (l, s, t)).getD 0 ≤ eps := by
  intro sty
  induction sty with
  | nil => intro b _ _ hb; exact hb
  | cons s2 rest ih =>
      intro b hnd hinv hb
      simp only [List.foldl_cons]
      by_cases hs2 : s2 = s
      · subst hs2
        apply ih _ (List.nodup_cons.mp hnd).2
        · intro hmem
          exact absurd hmem (List.nodup_cons.mp hnd).1
        · exact realiseStyle_self_bound _ _ _ _ _
            (hinv (List.mem_cons_self _ _)) hpot hb
      · apply ih _ (List.nodup_cons.mp hnd).2
        · intro hmem
          rw [realiseStyle_invFab_other _ _ _ _ _ hs2]
          exact hinv (List.mem_cons_of_mem _ hmem)
        · rw [realiseStyle_prod_other _ _ _ _ _ _ _ hs2]
          exact hb

theorem lines_fold_bridge (m : Model) (t t1 : Nat) (d : ℚ) (l s : Nat)
    (hcurve : ∀ pq ∈ m.curve, 0 ≤ pq.2) :
    ∀ (L : List Nat) (p : EvalSt × (Nat → List (Nat × ℚ))),
    (∀ l0 ∈ L, ∀ q ∈ m.lineCapacity l0, 0 ≤ q) →
    alookup p.1.assign (l, t) = some s →
    alookup p.1.assign (l, t1) = some s →
    (p.1.lineSt l).currentStyle = some s →
    p.1.invFab s ≤ eps →
    (∀ s2 e, e ∈ p.2 s2 → 0 ≤ e.2) →
    alookup (L.foldl (processLine m t (some t1) d) p).1.assign (l, t) = some s ∧
    alookup (L.foldl (processLine m t (some t1) d) p).1.assign (l, t1) = some s ∧
    ((L.foldl (processLine m t (some t1) d) p).1.lineSt l).currentStyle = some s ∧
    (∀ x, changesAt (L.foldl (processLine m t (some t1) d) p).1.changes l x =
        changesAt p.1.changes l x) ∧
    (L.foldl (processLine m t (some t1) d) p).1.invFab = p.1.invFab ∧
    (L.foldl (processLine m t (some t1) d) p).1.production = p.1.production ∧
    (∀ s2 e, e ∈ (L.foldl (processLine m t (some t1) d) p).2 s2 → 0 ≤ e.2) := by
  intro L
  induction L with
  | nil =>
      intro p _ hat hnext hcur hinv hpot
      exact ⟨hat, hnext, hcur, fun x => rfl, rfl, rfl, hpot⟩
  | cons l0 rest ih =>
      intro p hcap hat hnext hcur hinv hpot
      simp only [List.foldl_cons]
      have hcap0 : ∀ q ∈ m.lineCapacity l0, 0 ≤ q :=
        hcap l0 (List.mem_cons_self _ _)
      have hcaprest : ∀ l2 ∈ rest, ∀ q ∈ m.lineCapacity l2, 0 ≤ q := by
        intro l2 h2
        exact hcap l2 (List.mem_cons_of_mem _ h2)
      have hpot1 : ∀ s2 e, e ∈ (processLine m t (some t1) d p l0).2 s2 → 0 ≤ e.2 :=
        processLine_pot_nonneg m t (some t1) d p l0 hpot hcap0 hcurve
      have hinv1 : (processLine m t (some t1) d p l0).1.invFab s ≤ eps := by
        rw [processLine_invFab]
        exact hinv
    
      by_cases hll : l0 = l
      · subst hll
        obtain ⟨ha1, hc1, hch1, hs1⟩ :=
          processLine_bridge m t t1 d p l0 s hat hnext hcur hinv
        obtain ⟨r1, r2, r3, r4, r5, r6, r7⟩ := ih (processLine m t (some t1) d p l0)
          hcaprest (by rw [ha1]; exact hat) (by rw [ha1]; exact hnext) hc1 hinv1 hpot1
        refine ⟨r1, r2, r3, ?_, ?_, ?_, r7⟩
        · intro x
          rw [r4 x, hch1]
        · rw [r5, processLine_invFab]
        · rw [r6, processLine_production]
      · obtain ⟨ha1, hl1, hch1⟩ :=
          processLine_other m t (some t1) d p l0 l hll
        obtain ⟨r1, r2, r3, r4, r5, r6, r7⟩ := ih (processLine m t (some t1) d p l0)
          hcaprest (by rw [ha1 t]; exact hat) (by rw [ha1 t1]; exact hnext)
          (by rw [hl1]; exact hcur) hinv1 hpot1
        refine ⟨r1, r2, r3, ?_, ?_, ?_, r7⟩
        · intro x
          rw [r4 x, hch1 x]
        · rw [r5, processLine_invFab]
        · rw [r6, processLine_production]

/-- Claim C3 (corrected): on a valid bridge day (a non-final day `t` with
look-ahead day `t1`, a line `l` whose current style equals the assigned style
`s`, fabric inventory of `s` at most `ε` after the day's receipts, and
`A[l,t1] = s` as well) the evaluator keeps the assignment cell equal to `s`,
keeps the line's current style `s`, records no changeover at `(l, t)`, and the
production recorded for `(l, s, t)` is at most `ε` — equal to
`min(total_cap, inv_fab)`, so not exactly zero in general; moreover the line's
own decision step leaves the whole assignment, the change dict and the setup
cost unchanged. -/
theorem c3_valid_bridge (m : Model) (st : EvalSt) (t t1 l s : Nat)
    (hcap : ∀ l0 ∈ m.lines, ∀ q ∈ m.lineCapacity l0, 0 ≤ q)
    (hcurve : ∀ pq ∈ m.curve, 0 ≤ pq.2)
    (hnds : m.styles.Nodup)
    (hcur : (st.lineSt l).currentStyle = some s)
    (hat : alookup st.assign (l, t) = some s)
    (hnext : alookup st.assign (l, t1) = some s)
    (hinv : (receiptsPhase m t st).invFab s ≤ eps)
    (hfresh : dget st.production (l, s, t) = none) :
    alookup (processDay m st t (some t1)).assign (l, t) = some s ∧
    ((processDay m st t (some t1)).lineSt l).currentStyle = some s ∧
    (∀ x, changesAt (processDay m st t (some t1)).changes l x = changesAt st.changes l x) ∧
    (dget (processDay m st t (some t1)).production (l, s, t)).getD 0 ≤ eps ∧
    (∀ (d : ℚ) (p : EvalSt × (Nat → List (Nat × ℚ))),
        alookup p.1.assign (l, t) = some s →
        alookup p.1.assign (l, t1) = some s →
        (p.1.lineSt l).currentStyle = some s →
        p.1.invFab s ≤ eps →
        (processLine m t (some t1) d p l).1.assign = p.1.assign ∧
        (processLine m t (some t1) d p l).1.changes = p.1.changes ∧
        (processLine m t (some t1) d p l).1.setupCost = p.1.setupCost) := by
  have hship : ∀ (b : EvalSt),
      (m.styles.foldl (shipStyle m t (discount m.alpha t)) b).assign = b.assign ∧
      (m.styles.foldl (shipStyle m t (discount m.alpha t)) b).lineSt = b.lineSt ∧
      (m.styles.foldl (shipStyle m t (discount m.alpha t)) b).changes = b.changes ∧
      (m.styles.foldl (shipStyle m t (discount m.alpha t)) b).production = b.production := by
    intro b
    refine ⟨?_, ?_, ?_, ?_⟩
    · exact foldl_proj_eq _ EvalSt.assign
        (fun b0 s0 => shipStyle_assign m t _ b0 s0) m.styles b
    · exact foldl_proj_eq _ EvalSt.lineSt
        (fun b0 s0 => shipStyle_lineSt m t _ b0 s0) m.styles b
    · exact foldl_proj_eq _ EvalSt.changes
        (fun b0 s0 => shipStyle_changes m t _ b0 s0) m.styles b
    · exact foldl_proj_eq _ EvalSt.production
        (fun b0 s0 => shipStyle_production m t _ b0 s0) m.styles b
  have hreal : ∀ (pot : Nat → List (Nat × ℚ)) (b : EvalSt),
      (m.styles.foldl (realiseStyle t pot) b).assign = b.assign ∧
      ((m.styles.foldl (realiseStyle t pot) b).lineSt l).currentStyle =
        (b.lineSt l).currentStyle ∧
      (m.styles.foldl (realiseStyle t pot) b).changes = b.changes := by
    intro pot b
    refine ⟨?_, ?_, ?_⟩
    · exact foldl_proj_eq _ EvalSt.assign
        (fun b0 s0 => realiseStyle_assign t pot b0 s0) m.styles b
    · exact foldl_proj_eq _ (fun (x : EvalSt) => (x.lineSt l).currentStyle)
        (fun b0 s0 => realiseStyle_cur t pot b0 s0 l) m.styles b
    · exact foldl_proj_eq _ EvalSt.changes
        (fun b0 s0 => realiseStyle_changes t pot b0 s0) m.styles b
  obtain ⟨r1, r2, r3, r4, r5, r6, r7⟩ :=
    lines_fold_bridge m t t1 (discount m.alpha t) l s hcurve m.lines
      (receiptsPhase m t st, fun _ => []) hcap
      (by show alookup (receiptsPhase m t st).assign (l, t) = some s
          rw [receiptsPhase_assign]
          exact hat)
      (by show alookup (receiptsPhase m t st).assign (l, t1) = some s
          rw [receiptsPhase_assign]
          exact hnext)
      (by show ((receiptsPhase m t st).lineSt l).currentStyle = some s
          rw [receiptsPhase_lineSt]
          exact hcur)
      hinv
      (by intro s2 e he
          exact absurd he (List.not_mem_nil e))
  simp only [processDay]
  refine ⟨?_, ?_, ?_, ?_, ?_⟩
  · rw [(hship _).1, (hreal _ _).1]
    exact r1
  · rw [(hship _).2.1, (hreal _ _).2.1]
    exact r3
  · intro x
    rw [(hship _).2.2.1, (hreal _ _).2.2, r4 x]
    show changesAt (receiptsPhase m t st).changes l x = changesAt st.changes l x
    rw [receiptsPhase_changes]
  · rw [(hship _).2.2.2]
    refine fold_styles_bound t _ l s (fun e he => r7 s e he) m.styles _ hnds
      (fun _ => ?_) ?_
    · rw [r5]
      exact hinv
    · rw [r6]
      show (dget (receiptsPhase m t st).production (l, s, t)).getD 0 ≤ eps
      rw [receiptsPhase_production, hfresh]
      exact eps_pos.le
  · intro d p hat1 hnext1 hcur1 hinv1
    obtain ⟨x1, x2, x3, x4⟩ := processLine_bridge m t t1 d p l s hat1 hnext1 hcur1 hinv1
    exact ⟨x1, x3, x4⟩

/-- Witness for `C3`: the bridge instance `M3` / `sol3` (single style, two
days, inventory exactly `1e-6`) satisfies every hypothesis, and the bridge
day keeps the cell, the current style, and a production of at most `ε`. -/
theorem c3_valid_bridge_witness :
    ((∀ l0 ∈ M3.lines, ∀ q ∈ M3.lineCapacity l0, 0 ≤ q) ∧
      (∀ pq ∈ M3.curve, 0 ≤ pq.2) ∧
      M3.styles.Nodup ∧
      ((evalStart M3 sol3 []).lineSt 0).currentStyle = some 0 ∧
      alookup (evalStart M3 sol3 []).assign (0, 1) = some 0 ∧
      alookup (evalStart M3 sol3 []).assign (0, 2) = some 0 ∧
      (receiptsPhase M3 1 (evalStart M3 sol3 [])).invFab 0 ≤ eps ∧
      dget (evalStart M3 sol3 []).production (0, 0, 1) = none) ∧
    alookup (processDay M3 (evalStart M3 sol3 []) 1 (some 2)).assign (0, 1) = some 0 ∧
    ((processDay M3 (evalStart M3 sol3 []) 1 (some 2)).lineSt 0).currentStyle = some 0 ∧
    (dget (processDay M3 (evalStart M3 sol3 []) 1 (some 2)).production (0, 0, 1)).getD 0
      ≤ eps := by
  have hcap : ∀ l0 ∈ M3.lines, ∀ q ∈ M3.lineCapacity l0, 0 ≤ q := by
    norm_num [M3]
  have hcurve : ∀ pq ∈ M3.curve, 0 ≤ pq.2 := by
    norm_num [M3]
  have hnds : M3.styles.Nodup := by
    norm_num [M3]
  have hcur : ((evalStart M3 sol3 []).lineSt 0).currentStyle = some 0 := by
    norm_num [evalStart, getInitialStyleId, M3, sol3]
  have hat : alookup (evalStart M3 sol3 []).assign (0, 1) = some 0 := by
    norm_num [evalStart, repairPhase, randomAllowedStyleId, isAllowed, alookup, dget, dset,
      rngChoice, rngNext, M3, sol3]
  have hnext : alookup (evalStart M3 sol3 []).assign (0, 2) = some 0 := by
    norm_num [evalStart, repairPhase, randomAllowedStyleId, isAllowed, alookup, dget, dset,
      rngChoice, rngNext, M3, sol3]
  have hinv : (receiptsPhase M3 1 (evalStart M3 sol3 [])).invFab 0 ≤ eps := by
    norm_num [receiptsPhase, evalStart, repairPhase, randomAllowedStyleId, isAllowed,
      alookup, dget, dset, rngChoice, rngNext, updF, eps, M3, sol3]
  have hfresh : dget (evalStart M3 sol3 []).production (0, 0, 1) = none := by
    norm_num [evalStart, dget]
  have hmain := c3_valid_bridge M3 (evalStart M3 sol3 []) 1 2 0 0
    hcap hcurve hnds hcur hat hnext hinv hfresh
  exact ⟨⟨hcap, hcurve, hnds, hcur, hat, hnext, hinv, hfresh⟩,
    hmain.1, hmain.2.1, hmain.2.2.2.1⟩
